/-
  Verification of the AgentsToolkit deployment engine
  (desktop/src-tauri: validator, symlink, ipc resolver, deployment
  orchestrator, state store).

  Shallow embedding: pure Rust functions become Lean functions; filesystem
  and platform effects become explicit state (association lists path → content,
  abstract views of platform probes).  Machine integers (u64 character counts)
  are modelled as Nat — no count in the program can overflow in practice and
  no wrapping arithmetic occurs in the embedded code.  Floating point
  percentages are modelled as exact rationals; the classification
  `percentage > 80.0` agrees with the rational comparison for all in-range
  inputs.
-/
import Mathlib

namespace AgentsToolkit

/-! ## Budget validation (deployment/validator.rs) -/

/-- Mirrors `BudgetUsage` (deployer.rs): current character count, optional
maximum, optional percentage (f64 in the source, an exact rational here),
and the within-limit flag. -/
structure BudgetUsage where
  current_chars : Nat
  max_chars : Option Nat
  percentage : Option ℚ
  within_limit : Bool
deriving Repr, DecidableEq

/-- Mirrors `BudgetUsage::unlimited`. -/
def BudgetUsage.unlimited (current_chars : Nat) : BudgetUsage :=
  { current_chars := current_chars
    max_chars := none
    percentage := none
    within_limit := true }

/-- Mirrors `ValidationResult` (validator.rs). -/
structure ValidationResult where
  valid : Bool
  errors : List String
  warnings : List String
  budget : BudgetUsage
deriving Repr, DecidableEq

/-- Mirrors `DeploymentValidator::validate_character_budget` (validator.rs
lines 16-61).  `content.len()` in Rust is the UTF-8 byte size of the string.
The error/warning branch structure is exactly the source's:
no limit → always valid; otherwise an error when `current > max`, else a
warning when `current / max * 100 > 80`. -/
def validate_character_budget (content : String) (limit : Option Nat) :
    ValidationResult :=
  let current := content.utf8ByteSize
  match limit with
  | some max =>
      let percentage : ℚ := ((current : ℚ) / (max : ℚ)) * 100
      let within_limit : Bool := decide (current ≤ max)
      let errors : List String :=
        if within_limit then []
        else ["Content exceeds character limit: " ++ toString current ++
              " / " ++ toString max]
      let warnings : List String :=
        if within_limit ∧ percentage > 80 then
          ["Content uses high share of character limit (" ++
           toString current ++ " / " ++ toString max ++ ")"]
        else []
      { valid := within_limit
        errors := errors
        warnings := warnings
        budget :=
          { current_chars := current
            max_chars := some max
            percentage := some percentage
            within_limit := within_limit } }
  | none =>
      { valid := true
        errors := []
        warnings := []
        budget := BudgetUsage.unlimited current }

/-! ## PreparedDeployment builder (deployment/deployer.rs) -/

/-- Association-list update mirroring `HashMap::insert`: the new binding
replaces any previous binding of the same key. -/
def insertAssoc {β : Type} (l : List (String × β)) (k : String) (v : β) :
    List (String × β) :=
  (k, v) :: l.filter (fun e => e.1 ≠ k)

/-- Association-list lookup mirroring `HashMap::get` / JSON-document lookup. -/
def lookupAssoc {β : Type} (l : List (String × β)) (k : String) : Option β :=
  (l.find? (fun e => e.1 = k)).map (·.2)

/-- Mirrors `PreparedDeployment` (deployer.rs lines 96-112).  The two
`HashMap<String, String>` fields are modelled as association lists with
replace-on-insert semantics; `target_paths` keeps its order. -/
structure PreparedDeployment where
  agents_md_content : String
  commands : List (String × String)
  config_files : List (String × String)
  target_paths : List String
  character_count : Nat
  command_format : String
deriving Repr, DecidableEq

/-- Mirrors `PreparedDeployment::new`. -/
def PreparedDeployment.new (agents_md_content : String) : PreparedDeployment :=
  { agents_md_content := agents_md_content
    commands := []
    config_files := []
    target_paths := []
    character_count := agents_md_content.utf8ByteSize
    command_format := "markdown" }

/-- Mirrors `PreparedDeployment::add_command`: bumps the running character
count by the content's byte length, then inserts into the command map. -/
def PreparedDeployment.add_command (p : PreparedDeployment)
    (name content : String) : PreparedDeployment :=
  { p with
    character_count := p.character_count + content.utf8ByteSize
    commands := insertAssoc p.commands name content }

/-- Mirrors `PreparedDeployment::add_config_file`: inserts into the
config-file map and touches nothing else. -/
def PreparedDeployment.add_config_file (p : PreparedDeployment)
    (path content : String) : PreparedDeployment :=
  { p with config_files := insertAssoc p.config_files path content }

/-- Mirrors `PreparedDeployment::add_target_path`. -/
def PreparedDeployment.add_target_path (p : PreparedDeployment)
    (path : String) : PreparedDeployment :=
  { p with target_paths := p.target_paths ++ [path] }

/-- One builder call on a `PreparedDeployment`. -/
inductive PrepOp where
  | addCommand (name content : String)
  | addConfigFile (path content : String)
  | addTargetPath (path : String)
deriving Repr, DecidableEq

/-- Apply one builder call. -/
def applyPrepOp (p : PreparedDeployment) : PrepOp → PreparedDeployment
  | .addCommand name content => p.add_command name content
  | .addConfigFile path content => p.add_config_file path content
  | .addTargetPath path => p.add_target_path path

/-- Byte length contributed by one builder call: only `add_command` content
counts. -/
def prepOpChars : PrepOp → Nat
  | .addCommand _ content => content.utf8ByteSize
  | .addConfigFile _ _ => 0
  | .addTargetPath _ => 0

/-! ## State store (deployment/state.rs) -/

/-- Mirrors `DeploymentState` (state.rs lines 15-36).  Timestamps are
abstract instants modelled as naturals. -/
structure DeploymentState where
  agent_id : String
  timestamp : Nat
  deployed_packs : List String
  deployed_commands : List String
  files_created : List String
  backup_path : Option String
  method : String
  target_level : String
  project_path : Option String
deriving Repr, DecidableEq

/-- The `deployments` map of `DeploymentStateStore`: target id → ordered
list of recorded states (oldest first). -/
abbrev StoreMap : Type := List (String × List DeploymentState)

/-- History for one agent, empty when the agent has no entry (all reads
tolerate a missing document). -/
def storeHistory (store : StoreMap) (agent_id : String) :
    List DeploymentState :=
  (lookupAssoc store agent_id).getD []

/-- The truncation step of `StateManager::record_deployment`: keep only the
last 10 deployments.  In the source: `if len > 10 { drain(0..len - 10) }`;
since `l.drop (l.length - 10) = l` whenever `l.length ≤ 10`, this equals an
unconditional drop. -/
def truncate10 (l : List DeploymentState) : List DeploymentState :=
  if l.length > 10 then l.drop (l.length - 10) else l

/-- Mirrors the store-level effect of `StateManager::record_deployment`
(state.rs lines 146-158): append the new state to the agent's list, then
truncate to the most recent 10. -/
def record_deployment (store : StoreMap) (s : DeploymentState) : StoreMap :=
  insertAssoc store s.agent_id (truncate10 (storeHistory store s.agent_id ++ [s]))

/-- Twelve concrete recorded deployments for one target, used as the C7
witness input. -/
def witnessStates : List DeploymentState :=
  (List.range 12).map (fun i =>
    { agent_id := "a", timestamp := i, deployed_packs := [],
      deployed_commands := [], files_created := [], backup_path := none,
      method := "symlink", target_level := "user", project_path := none })

/-! ## Link creation (symlink.rs)

The filesystem probes (`exists`, `is_dir`, `is_file`, `is_symlink`,
`read_link`, `canonicalize`, device/inode metadata) and the platform-specific
ability of each link tier to succeed are environment inputs; they are
gathered in `FsView` and `LinkOps`.  `create_link` itself is embedded as a
pure function from these views that returns the source's result value plus
the list of filesystem mutations it performs. -/

/-- Mirrors `LinkMethod` (types.rs lines 132-138). -/
inductive LinkMethod where
  | Symlink
  | Junction
  | Hardlink
  | Copy
  | Existing
deriving Repr, DecidableEq

/-- Mirrors `SymlinkError` (symlink.rs lines 13-25). -/
inductive SymlinkError where
  | Io (msg : String)
  | TargetNotFound (p : String)
  | LinkExists (p : String)
  | WouldOverwrite (p : String)
  | AllMethodsFailed
deriving Repr, DecidableEq

/-- View of the filesystem state consulted by `create_link` and
`paths_point_to_same`: existence and kind probes, `read_link`,
`canonicalize` (`none` when the OS call fails), and the platform file
identity (device+inode on POSIX, file index on Windows). -/
structure FsView where
  pathExists : String → Bool
  isDir : String → Bool
  isFile : String → Bool
  isSymlink : String → Bool
  readLink : String → Option String
  canonicalize : String → Option String
  fileId : String → Option (Nat × Nat)

/-- Mirrors `paths_point_to_same` (symlink.rs lines 290-336): first compare
the symlink resolution of `a` against `b` (raw, then canonicalized), then
canonicalized paths, then platform file identity. -/
def paths_point_to_same (fs : FsView) (a b : String) : Bool :=
  (match fs.readLink a with
   | some resolved =>
       decide (resolved = b) ||
       (match fs.canonicalize resolved, fs.canonicalize b with
        | some rc, some bc => decide (rc = bc)
        | _, _ => false)
   | none => false) ||
  (match fs.canonicalize a, fs.canonicalize b with
   | some ac, some bc => decide (ac = bc)
   | _, _ => false) ||
  (match fs.fileId a, fs.fileId b with
   | some ia, some ib => decide (ia = ib)
   | _, _ => false)

/-- Platform capabilities of the three native link tiers plus the copy
outcome: `copyResult = none` means the recursive copy succeeds, `some e`
that it fails with I/O error `e`. -/
structure LinkOps where
  isWindows : Bool
  symlinkOk : Bool
  junctionOk : Bool
  hardlinkOk : Bool
  copyResult : Option String

/-- A filesystem mutation performed by `create_link`. -/
inductive FsAction where
  | removeFile (p : String)
  | createParentDirs (p : String)
  | makeLink (m : LinkMethod) (link target : String)
deriving Repr, DecidableEq

/-- Warning attached to a junction fallback (symlink.rs line 189). -/
def junction_warning : String :=
  "Used junction instead of symlink. Consider enabling Developer Mode for true symlinks."

/-- Warning attached to a hard-link fallback (symlink.rs line 200). -/
def hardlink_warning : String :=
  "Used hard link instead of symlink. Changes to source or link affect both."

/-- Warning attached to a copy fallback (symlink.rs line 210). -/
def copy_warning : String :=
  "Copied files instead of creating link. Run agentsdotmd-init --update to sync future toolkit updates."

/-- The fallback tiers of `create_link` (symlink.rs lines 173-215), entered
after the existing-destination handling: ensure the parent directory, then
try symlink, then (Windows, directories) junction, then (files) hard link,
then recursive copy.  A failing copy propagates its I/O error. -/
def attempt_chain (fs : FsView) (ops : LinkOps) (link_path target_path : String)
    (target_is_dir : Bool) (acts : List FsAction) :
    Except SymlinkError (LinkMethod × Option String) × List FsAction :=
  let acts := acts ++ [FsAction.createParentDirs link_path]
  if ops.symlinkOk then
    (.ok (.Symlink, none), acts ++ [.makeLink .Symlink link_path target_path])
  else if ops.isWindows ∧ target_is_dir ∧ ops.junctionOk then
    (.ok (.Junction, some junction_warning),
      acts ++ [.makeLink .Junction link_path target_path])
  else if ¬ target_is_dir ∧ fs.isFile target_path ∧ ops.hardlinkOk then
    (.ok (.Hardlink, some hardlink_warning),
      acts ++ [.makeLink .Hardlink link_path target_path])
  else
    match ops.copyResult with
    | none =>
        (.ok (.Copy, some copy_warning),
          acts ++ [.makeLink .Copy link_path target_path])
    | some e => (.error (.Io e), acts)

/-- Mirrors `create_link` (symlink.rs lines 118-215).  Paths are taken
already absolute (the current-directory join is environment-dependent
preprocessing); the target is canonicalized when possible, checked for
existence, then the existing-destination policy runs before the fallback
chain. -/
def create_link (fs : FsView) (ops : LinkOps) (link_path target_path0 : String)
    (force : Bool) :
    Except SymlinkError (LinkMethod × Option String) × List FsAction :=
  let target_path := (fs.canonicalize target_path0).getD target_path0
  if ¬ fs.pathExists target_path then
    (.error (.TargetNotFound target_path), [])
  else
    let target_is_dir := fs.isDir target_path
    if fs.pathExists link_path then
      if paths_point_to_same fs link_path target_path then
        (.ok (.Existing, none), [])
      else if ¬ force then
        (.error (.LinkExists link_path), [])
      else if fs.isSymlink link_path then
        attempt_chain fs ops link_path target_path target_is_dir
          [FsAction.removeFile link_path]
      else if fs.isFile link_path then
        (.error (.WouldOverwrite link_path), [])
      else
        (.error (.WouldOverwrite link_path), [])
    else
      attempt_chain fs ops link_path target_path target_is_dir []

/-- Concrete filesystem view for the link-creation witnesses: `/src` is an
existing file, `/dst` an existing plain (non-symlink) file. -/
def linkFsA : FsView :=
  { pathExists := fun p => p = "/dst" ∨ p = "/src"
    isDir := fun _ => false
    isFile := fun p => p = "/dst" ∨ p = "/src"
    isSymlink := fun _ => false
    readLink := fun _ => none
    canonicalize := fun _ => none
    fileId := fun _ => none }

/-- Concrete tier capabilities where the symlink tier would succeed. -/
def linkOpsA : LinkOps :=
  { isWindows := false
    symlinkOk := true
    junctionOk := false
    hardlinkOk := false
    copyResult := none }

/-- Concrete filesystem view for the all-tiers-fail counterexample: only the
source file exists. -/
def linkFsB : FsView :=
  { pathExists := fun p => p = "/src"
    isDir := fun _ => false
    isFile := fun p => p = "/src"
    isSymlink := fun _ => false
    readLink := fun _ => none
    canonicalize := fun _ => none
    fileId := fun _ => none }

/-- Tier capabilities where every tier fails; the copy tier reports an I/O
error. -/
def linkOpsB : LinkOps :=
  { isWindows := false
    symlinkOk := false
    junctionOk := false
    hardlinkOk := false
    copyResult := some "disk full" }

/-! ## Dependency resolution (ipc.rs, `resolve_dependencies_internal`)

The pack universe read from disk (`read_pack_json` + JSON parsing of the
`dependencies` field) is modelled as an association list pack id → declared
dependency ids; a missing key is a failed pack load.  The Rust recursion has
no explicit bound; the embedding carries a recursion budget that is provably
never exhausted at the budget chosen by the top-level entry point, because
every id on the call path is distinct and (except possibly the deepest one)
a key of the graph. -/

/-- Pack id → declared dependencies. -/
abbrev PackGraph : Type := List (String × List String)

/-- Mirrors loading `pack.json` for `id` and reading its `dependencies`. -/
def lookupPack (g : PackGraph) (id : String) : Option (List String) :=
  lookupAssoc g id

/-- The resolver's mutable state: the path-scoped visited set, the output
order, and the current path. -/
structure RState where
  visited : List String
  order : List String
  path : List String
deriving Repr, DecidableEq

/-- Mirrors `path.join(" -> ")`. -/
def joinArrow : List String → String
  | [] => ""
  | [x] => x
  | x :: y :: xs => x ++ " -> " ++ joinArrow (y :: xs)

/-- The `for dep_id in &pack.dependencies` loop of `resolve_recursive`:
skip dependencies already in the order, otherwise run the resolver `f` one
level deeper, propagating the first error together with the mutated state. -/
def resolveDeps (f : String → RState → RState × Option String) :
    List String → RState → RState × Option String
  | [], st => (st, none)
  | d :: ds, st =>
      if st.order.contains d then resolveDeps f ds st
      else
        match f d st with
        | (st', none) => resolveDeps f ds st'
        | (st', some e) => (st', some e)

/-- Mirrors `resolve_recursive` (ipc.rs lines 54-85): fail when the id is on
the current path (cycle), mark it visited and push it onto the path, load its
pack (missing pack is a hard error), resolve each dependency, then append the
id to the order if absent and unmark it. -/
def resolveRec (g : PackGraph) : Nat → String → RState → RState × Option String
  | 0, _, st => (st, some "resolver recursion budget exhausted")
  | fuel + 1, id, st =>
      if st.visited.contains id then
        (st, some ("Circular dependency detected: " ++ joinArrow st.path))
      else
        let st1 : RState :=
          { visited := id :: st.visited, order := st.order,
            path := st.path ++ [id] }
        match lookupPack g id with
        | none => (st1, some ("Failed to load pack: " ++ id))
        | some deps =>
            match resolveDeps (resolveRec g fuel) deps st1 with
            | (st2, some e) => (st2, some e)
            | (st2, none) =>
                ({ visited := st2.visited.erase id
                   order :=
                     if st2.order.contains id then st2.order
                     else st2.order ++ [id]
                   path := st2.path.dropLast }, none)

/-- Mirrors `DependencyResolution` (types.rs). -/
structure DependencyResolution where
  order : List String
  success : Bool
  error : Option String
  circular_path : Option (List String)
deriving Repr, DecidableEq

/-- Mirrors `resolve_dependencies_internal` (ipc.rs lines 49-102): run the
recursive resolver from empty state; on success return the collected order,
on failure an empty order with the error and the path at failure.  The
recursion budget `g.length + 2` exceeds the longest possible call chain (all
path ids are distinct and all but the deepest are keys of `g`). -/
def resolve_dependencies_internal (g : PackGraph) (pack_id : String) :
    DependencyResolution :=
  match resolveRec g (g.length + 2) pack_id ⟨[], [], []⟩ with
  | (st, none) =>
      { order := st.order, success := true, error := none, circular_path := none }
  | (st, some e) =>
      { order := [], success := false, error := some e,
        circular_path := some st.path }

/-- One declared dependency edge of the pack graph. -/
def depEdge (g : PackGraph) (x d : String) : Prop :=
  ∃ deps, lookupPack g x = some deps ∧ d ∈ deps

/-- Reflexive-transitive dependency reachability. -/
inductive Reaches (g : PackGraph) : String → String → Prop where
  | refl (x : String) : Reaches g x x
  | step {x d y : String} : depEdge g x d → Reaches g d y → Reaches g x y

/-- Transitive (at least one edge) dependency: `z` is a transitive
dependency of `x`. -/
inductive TransDep (g : PackGraph) : String → String → Prop where
  | single {x d : String} : depEdge g x d → TransDep g x d
  | head {x d y : String} : depEdge g x d → TransDep g d y → TransDep g x y

/-- The invariant of the output order: no duplicates, every entry's pack
loads, and every declared dependency of an entry occurs strictly earlier. -/
def GoodOrder (g : PackGraph) (order : List String) : Prop :=
  order.Nodup ∧ ∀ (i : Nat) (hi : i < order.length), ∃ deps,
    lookupPack g order[i] = some deps ∧ ∀ d ∈ deps, d ∈ order.take i

/-- Postcondition of a successful `resolveRec` call on `id`: the order grows
at the end only, visited set and path are restored, `id` lands in the order,
the order invariant is preserved, and every new order entry is reachable from
`id`. -/
def ResolveOk (g : PackGraph) (id : String) (st st' : RState) : Prop :=
  (∃ t, st'.order = st.order ++ t) ∧
  st'.visited = st.visited ∧
  st'.path = st.path ∧
  id ∈ st'.order ∧
  (GoodOrder g st.order → GoodOrder g st'.order) ∧
  (∀ y ∈ st'.order, y ∈ st.order ∨ Reaches g id y)

/-- Postcondition of a successful dependency-loop pass over `ds`. -/
def DepsOk (g : PackGraph) (ds : List String) (st st' : RState) : Prop :=
  (∃ t, st'.order = st.order ++ t) ∧
  st'.visited = st.visited ∧
  st'.path = st.path ∧
  (∀ d ∈ ds, d ∈ st'.order) ∧
  (GoodOrder g st.order → GoodOrder g st'.order) ∧
  (∀ y ∈ st'.order, y ∈ st.order ∨ ∃ d ∈ ds, Reaches g d y)

/-- The distinct pack ids of the graph. -/
def keyIds (g : PackGraph) : List String := (g.map Prod.fst).dedup

/-! ## Deployment orchestrator (deployment/mod.rs) with backup manager
(state.rs) and logger

The on-disk world is a record: file contents, the backup directory tree
(backup dir → basename → copied content), the persisted state-store document,
the log, and the current instant.  Adapters (trait objects in the source) are
records of their four effectful methods; `prepare`/`validate` read external
pack data captured in the closure, `deploy`/`rollback` additionally
transform the world.  Loading and saving the state document and writing log
lines are modelled as reliable; directory copies are modelled as content
copies keyed by basename exactly as the source keys backups by
`file_name()`. -/

/-- Mirrors `DeploymentError` (deployment/error.rs); the serde/IO wrapper
variants carry their message. -/
inductive DeploymentError where
  | ValidationFailed (msg : String)
  | FileSystemError (path msg : String)
  | FormatConversionError (msg : String)
  | AgentNotFound (agent : String)
  | RollbackFailed (msg : String)
  | StateError (msg : String)
  | ConfigurationError (msg : String)
  | CharacterLimitExceeded (current limit : Nat)
  | BackupFailed (msg : String)
  | AgentNotInstalled (agent : String)
  | IoError (msg : String)
deriving Repr, DecidableEq

/-- The `Display` text of a `DeploymentError` (`thiserror` attributes in
error.rs). -/
def DeploymentError.toMessage : DeploymentError → String
  | .ValidationFailed m => "Validation failed: " ++ m
  | .FileSystemError p m => "File system error at " ++ p ++ ": " ++ m
  | .FormatConversionError m => "Format conversion error: " ++ m
  | .AgentNotFound a => "Agent not found: " ++ a
  | .RollbackFailed m => "Rollback failed: " ++ m
  | .StateError m => "State error: " ++ m
  | .ConfigurationError m => "Configuration error: " ++ m
  | .CharacterLimitExceeded c l =>
      "Character limit exceeded: " ++ toString c ++ " / " ++ toString l ++
        " characters"
  | .BackupFailed m => "Backup failed: " ++ m
  | .AgentNotInstalled a => "Agent not installed: " ++ a
  | .IoError m => "IO error: " ++ m

/-- Mirrors `TargetLevel` (deployer.rs). -/
inductive TargetLevel where
  | User
  | Project
deriving Repr, DecidableEq

/-- The serialized name of a target level (mod.rs lines 186-189). -/
def TargetLevel.toStr : TargetLevel → String
  | .User => "user"
  | .Project => "project"

/-- Mirrors `DeploymentConfig` (deployer.rs lines 13-28). -/
structure DeploymentConfig where
  agent_id : String
  pack_ids : List String
  custom_command_ids : List String
  target_level : TargetLevel
  force_overwrite : Bool
  project_path : Option String
deriving Repr, DecidableEq

/-- Mirrors `ValidationReport` (deployer.rs lines 142-153). -/
structure ValidationReport where
  valid : Bool
  errors : List String
  warnings : List String
  budget_usage : BudgetUsage
deriving Repr, DecidableEq

/-- Mirrors `CommandValidationResult` (command_validator.rs lines 14-19). -/
structure CommandValidationResult where
  valid : Bool
  errors : List String
  warnings : List String
deriving Repr, DecidableEq

/-- Mirrors `DeploymentOutput` (deployer.rs lines 45-60). -/
structure DeploymentOutput where
  success : Bool
  method : String
  warnings : List String
  errors : List String
  deployed_files : List String
  manual_steps : List String
deriving Repr, DecidableEq

/-- One line written by `DeploymentLogger`. -/
structure LogEntry where
  agent : String
  op : String
  ok : Bool
  details : List String
deriving Repr, DecidableEq

/-- The mutable on-disk world: files (path → content), backup tree
(backup dir → basename → content), the state-store document, the log, and
the current instant. -/
structure World where
  fs : List (String × String)
  backups : List (String × List (String × String))
  store : StoreMap
  logs : List LogEntry
  now : Nat
deriving Repr, DecidableEq

def fsLookup (fs : List (String × String)) (p : String) : Option String :=
  lookupAssoc fs p

def fsPathExists (fs : List (String × String)) (p : String) : Bool :=
  (fsLookup fs p).isSome

/-- Mirrors `DeploymentLogger::log_success`. -/
def log_success (agent op : String) (msg : Option String) (w : World) : World :=
  { w with logs := w.logs ++ [⟨agent, op, true, msg.toList⟩] }

/-- Mirrors `DeploymentLogger::log_failure`. -/
def log_failure (agent op : String) (errors : List String) (w : World) : World :=
  { w with logs := w.logs ++ [⟨agent, op, false, errors⟩] }

/-- The last component of a path, mirroring `Path::file_name`. -/
def basename (p : String) : String := (p.splitOn "/").getLastD ""

/-- The backup directory for one run, mirroring
`backup_root.join(agent_id).join(timestamp)` (state.rs lines 248-249). -/
def backupDirName (agent_id : String) (now : Nat) : String :=
  "backups/" ++ agent_id ++ "/" ++ toString now

/-- The files copied into a backup directory, keyed by basename; a later
file with the same basename overwrites an earlier one exactly as the
source's `fs::copy` into `backup_dir.join(file_name)` does. -/
def backupContents (fs : List (String × String)) (files : List String) :
    List (String × String) :=
  files.foldl (fun acc f => insertAssoc acc (basename f) ((fsLookup fs f).getD "")) []

/-- Character-level prefix test mirroring `Path::starts_with` on the
backup-directory layout. -/
def startsWithStr (s pre : String) : Bool := pre.data.isPrefixOf s.data

def strLeB (a b : String) : Bool := !(compare a b == Ordering.gt)

def insertSortedByKey (x : String × List (String × String)) :
    List (String × List (String × String)) →
    List (String × List (String × String))
  | [] => [x]
  | y :: ys => if strLeB x.1 y.1 then x :: y :: ys else y :: insertSortedByKey x ys

def sortByKey (l : List (String × List (String × String))) :
    List (String × List (String × String)) :=
  l.foldr insertSortedByKey []

/-- Mirrors `BackupManager::cleanup_old_backups` (state.rs lines 346-378):
sort the agent's backup directories by name and drop the oldest beyond the
retention count. -/
def cleanup_old_backups (agent_id : String) (keep : Nat) (w : World) : World :=
  let pre := "backups/" ++ agent_id ++ "/"
  let entries := w.backups.filter (fun e => startsWithStr e.1 pre)
  let sorted := sortByKey entries
  if sorted.length > keep then
    let doomed := (sorted.take (sorted.length - keep)).map Prod.fst
    { w with backups := w.backups.filter (fun e => !(doomed.contains e.1)) }
  else w

/-- Mirrors `BackupManager::create_backup` (state.rs lines 229-276): nothing
to do when no listed path exists; otherwise copy each existing path into a
timestamped directory by basename and prune old backups (keep 5). -/
def create_backup (agent_id : String) (files_to_backup : List String)
    (w : World) : Except DeploymentError (Option String × World) :=
  if files_to_backup.isEmpty then .ok (none, w)
  else
    let existing := files_to_backup.filter (fun f => fsPathExists w.fs f)
    if existing.isEmpty then .ok (none, w)
    else
      let backup_dir := backupDirName agent_id w.now
      let contents := backupContents w.fs existing
      let w1 := { w with backups := insertAssoc w.backups backup_dir contents }
      let w2 := cleanup_old_backups agent_id 5 w1
      .ok (some backup_dir, w2)

/-- One entry of a backup restore: match the entry's basename to the first
original path with the same basename and recreate it (delete-then-copy is an
overwrite); no match skips the entry. -/
def restoreStep (original_paths : List String)
    (fsAcc : List (String × String)) (e : String × String) :
    List (String × String) :=
  match original_paths.find? (fun p => basename p = e.1) with
  | some original => insertAssoc fsAcc original e.2
  | none => fsAcc

/-- Mirrors `BackupManager::restore_backup` (state.rs lines 279-343): a
missing backup directory is a `RollbackFailed` error; otherwise each backup
entry is restored over the matching original path. -/
def restore_backup (backup_path : String) (original_paths : List String)
    (w : World) : Except DeploymentError World :=
  match lookupAssoc w.backups backup_path with
  | none => .error (.RollbackFailed "Backup directory does not exist")
  | some entries =>
      .ok { w with fs := entries.foldl (restoreStep original_paths) w.fs }

/-- World-level `StateManager::record_deployment`; the load/save round trip
is modelled as reliable. -/
def record_deployment_world (s : DeploymentState) (w : World) :
    Except DeploymentError World :=
  .ok { w with store := record_deployment w.store s }

/-- Mirrors `StateManager::get_agent_state`. -/
def get_agent_state (agent_id : String) (w : World) : Option DeploymentState :=
  (lookupAssoc w.store agent_id).bind (fun states => states.getLast?)

/-- Mirrors `StateManager::get_deployment_by_timestamp` (exact match). -/
def get_deployment_by_timestamp (agent_id : String) (ts : Nat) (w : World) :
    Option DeploymentState :=
  (lookupAssoc w.store agent_id).bind
    (fun states => states.find? (fun s => s.timestamp = ts))

/-- Mirrors `StateManager::remove_latest_deployment` (state.rs lines
202-212): pop the last recorded state of the agent, if any. -/
def remove_latest_deployment (agent_id : String) (w : World) :
    Option DeploymentState × World :=
  match lookupAssoc w.store agent_id with
  | some states =>
      (states.getLast?,
        { w with store := insertAssoc w.store agent_id states.dropLast })
  | none => (none, w)

/-- Model of a `dyn AgentDeployer`: `prepare`/`validate` read pack data
captured in the closure; `deploy` and `rollback` transform the world (a
failing `deploy` may still have mutated it). -/
structure Adapter where
  prepare : DeploymentConfig → Except DeploymentError PreparedDeployment
  validate : PreparedDeployment → Except DeploymentError ValidationReport
  deploy : PreparedDeployment → DeploymentConfig → World →
    Except DeploymentError DeploymentOutput × World
  rollback : DeploymentState → World → Except DeploymentError World

/-- Model of `DeploymentManager`: the adapter registry plus the
selection-scoped command validator
(`DeploymentValidator::validate_commands_for_agent`). -/
structure DeploymentManager where
  registry : String → Option Adapter
  validate_commands_for_agent :
    DeploymentConfig → Except DeploymentError CommandValidationResult

/-- Mirrors `join("; ")`. -/
def joinSemi : List String → String
  | [] => ""
  | [x] => x
  | x :: y :: xs => x ++ "; " ++ joinSemi (y :: xs)

/-- Mirrors `DeploymentManager::merge_with_command_validation` (mod.rs lines
56-75): no commands selected → the adapter report passes through; otherwise
warnings and errors are unioned and validity is the conjunction of both
reports' validity and emptiness of the combined error list. -/
def DeploymentManager.merge_with_command_validation (m : DeploymentManager)
    (validation : ValidationReport) (config : DeploymentConfig) :
    Except DeploymentError ValidationReport :=
  if config.custom_command_ids.isEmpty then .ok validation
  else
    match m.validate_commands_for_agent config with
    | .error e => .error e
    | .ok cv =>
        .ok { validation with
          warnings := validation.warnings ++ cv.warnings
          errors := validation.errors ++ cv.errors
          valid := validation.valid && cv.valid &&
            (validation.errors ++ cv.errors).isEmpty }

/-- The backup → deploy → restore-on-failure → record tail of
`DeploymentManager::deploy` (mod.rs lines 154-219), entered once validation
has passed: back up the existing target paths, run the adapter deploy; on
failure restore the backup best-effort with the restore result discarded and
propagate the original error; on success record the deployment state. -/
def deploy_after_validation (adapter : Adapter) (config : DeploymentConfig)
    (prepared : PreparedDeployment) (w : World) :
    Except DeploymentError DeploymentOutput × World :=
  let files_to_backup := prepared.target_paths.filter
    (fun p => fsPathExists w.fs p)
  match create_backup config.agent_id files_to_backup w with
  | .error e => (.error e, w)
  | .ok (backup_path, w) =>
      match adapter.deploy prepared config w with
      | (.error e, w2) =>
          let w3 :=
            match backup_path with
            | some backup =>
                match restore_backup backup files_to_backup w2 with
                | .ok w' => w'
                | .error _ => w2
            | none => w2
          (.error e, log_failure config.agent_id "deploy" [e.toMessage] w3)
      | (.ok result, w2) =>
          let state : DeploymentState :=
            { agent_id := config.agent_id
              timestamp := w2.now
              deployed_packs := config.pack_ids
              deployed_commands := config.custom_command_ids
              files_created := result.deployed_files
              backup_path := backup_path
              method := result.method
              target_level := config.target_level.toStr
              project_path := config.project_path }
          match record_deployment_world state w2 with
          | .error e => (.error e, w2)
          | .ok w3 =>
              (.ok result,
                log_success config.agent_id "deploy"
                  (some ("Deployed " ++
                    toString result.deployed_files.length ++
                    " files using " ++ result.method)) w3)

/-- Mirrors `DeploymentManager::deploy` (mod.rs lines 78-220): look up the
adapter, log, prepare, validate, merge command validation, gate on validity,
then run the backup/deploy/record tail. -/
def DeploymentManager.deploy (m : DeploymentManager)
    (config : DeploymentConfig) (w : World) :
    Except DeploymentError DeploymentOutput × World :=
  match m.registry config.agent_id with
  | none => (.error (.AgentNotFound config.agent_id), w)
  | some adapter =>
      let w := log_success config.agent_id "prepare"
        (some ("Starting deployment with " ++ toString config.pack_ids.length
          ++ " packs")) w
      match adapter.prepare config with
      | .error e =>
          (.error e, log_failure config.agent_id "prepare" [e.toMessage] w)
      | .ok prepared =>
          match adapter.validate prepared with
          | .error e =>
              (.error e, log_failure config.agent_id "validate" [e.toMessage] w)
          | .ok validation0 =>
              match m.merge_with_command_validation validation0 config with
              | .error e =>
                  (.error e,
                    log_failure config.agent_id "validate" [e.toMessage] w)
              | .ok validation =>
                  if ¬ validation.valid then
                    (.error (.ValidationFailed (joinSemi validation.errors)),
                      log_failure config.agent_id "validate" validation.errors w)
                  else
                    deploy_after_validation adapter config prepared
                      (log_success config.agent_id "validate"
                        (some "Validated") w)

/-- Mirrors `DeploymentManager::rollback` (mod.rs lines 223-283): resolve
the state to undo (exact-timestamp match, or the latest; no match is a
`RollbackFailed` error), run the adapter rollback, restore the recorded
backup if any over the created files, then remove the latest recorded
deployment.  Timestamps arrive already parsed. -/
def DeploymentManager.rollback (m : DeploymentManager) (agent_id : String)
    (timestamp : Option Nat) (w : World) :
    Except DeploymentError Unit × World :=
  match m.registry agent_id with
  | none => (.error (.AgentNotFound agent_id), w)
  | some adapter =>
      let stateRes : Except DeploymentError DeploymentState :=
        match timestamp with
        | some ts =>
            match get_deployment_by_timestamp agent_id ts w with
            | some s => .ok s
            | none => .error (.RollbackFailed
                ("No deployment found at timestamp " ++ toString ts))
        | none =>
            match get_agent_state agent_id w with
            | some s => .ok s
            | none => .error (.RollbackFailed
                ("No deployment found for agent " ++ agent_id))
      match stateRes with
      | .error e => (.error e, w)
      | .ok state =>
          match adapter.rollback state w with
          | .error e => (.error e, w)
          | .ok w1 =>
              let restored : Except DeploymentError World :=
                match state.backup_path with
                | some backup_path =>
                    restore_backup backup_path state.files_created w1
                | none => .ok w1
              match restored with
              | .error e => (.error e, w1)
              | .ok w2 =>
                  let w3 := (remove_latest_deployment agent_id w2).2
                  (.ok (), log_success agent_id "rollback"
                    (some "Rollback completed successfully") w3)

/-- The report classification every in-repo adapter `validate` ends with
(e.g. claude.rs lines 219-223): a non-empty error list yields
`ValidationReport::failure`, otherwise `success` with the warnings. -/
def adapter_report_classify (errors warnings : List String)
    (budget : BudgetUsage) : ValidationReport :=
  if errors = [] then
    { valid := true, errors := [], warnings := warnings, budget_usage := budget }
  else
    { valid := false, errors := errors, warnings := [], budget_usage := budget }

/-- Concrete adapter whose validation reports an error, used for the C5
witness. -/
def adapterC5 : Adapter :=
  { prepare := fun _ => .ok (PreparedDeployment.new "x")
    validate := fun _ => .ok ⟨false, ["boom"], [], BudgetUsage.unlimited 1⟩
    deploy := fun _ _ w => (.ok ⟨true, "symlink", [], [], [], []⟩, w)
    rollback := fun _ w => .ok w }

/-- Concrete manager for the C5 witness. -/
def mgrC5 : DeploymentManager :=
  { registry := fun _ => some adapterC5
    validate_commands_for_agent := fun _ => .ok ⟨true, [], []⟩ }

/-- Concrete config (no custom commands) for the C5 witness. -/
def cfgC5 : DeploymentConfig :=
  { agent_id := "a", pack_ids := [], custom_command_ids := []
    target_level := .User, force_overwrite := false, project_path := none }

/-- Concrete world with one pre-existing file, for the orchestrator
witnesses. -/
def worldA : World :=
  { fs := [("/dst", "orig")], backups := [], store := [], logs := [], now := 0 }

/-- Concrete failing adapter for the C6 witness: its deploy clobbers the
destination and fails, leaving the backup tree intact. -/
def adapterC6 : Adapter :=
  { prepare := fun _ => .ok ((PreparedDeployment.new "content").add_target_path "/dst")
    validate := fun _ => .ok ⟨true, [], [], BudgetUsage.unlimited 7⟩
    deploy := fun _ _ w' => (.error (.FileSystemError "/dst" "disk full"),
      { w' with fs := insertAssoc w'.fs "/dst" "CLOBBERED" })
    rollback := fun _ w' => .ok w' }

/-- Concrete manager for the C6 witness. -/
def mgrC6 : DeploymentManager :=
  { registry := fun _ => some adapterC6
    validate_commands_for_agent := fun _ => .ok ⟨true, [], []⟩ }

/-- Concrete failing adapter whose deploy also wipes the backup tree, so
the subsequent restore attempt fails; used for the C6 counterexample. -/
def adapterC6x : Adapter :=
  { prepare := fun _ => .ok ((PreparedDeployment.new "content").add_target_path "/dst")
    validate := fun _ => .ok ⟨true, [], [], BudgetUsage.unlimited 7⟩
    deploy := fun _ _ w' => (.error (.FileSystemError "/dst" "disk full"),
      { w' with fs := insertAssoc w'.fs "/dst" "CLOBBERED", backups := [] })
    rollback := fun _ w' => .ok w' }

/-- Concrete manager for the C6 counterexample. -/
def mgrC6x : DeploymentManager :=
  { registry := fun _ => some adapterC6x
    validate_commands_for_agent := fun _ => .ok ⟨true, [], []⟩ }

/-- Older recorded deployment for the C8 counterexample. -/
def stA : DeploymentState :=
  ⟨"a", 1, [], [], [], none, "symlink", "user", none⟩

/-- Newer recorded deployment for the C8 counterexample. -/
def stB : DeploymentState :=
  ⟨"a", 2, [], [], [], none, "symlink", "user", none⟩

/-- World with two recorded deployments for agent `a`. -/
def worldC8 : World :=
  { fs := [], backups := [], store := [("a", [stA, stB])], logs := [], now := 5 }

/-- Trivial adapter whose rollback succeeds without touching the world. -/
def adapterC8 : Adapter :=
  { prepare := fun _ => .error (.ConfigurationError "unused")
    validate := fun _ => .error (.ConfigurationError "unused")
    deploy := fun _ _ w => (.error (.ConfigurationError "unused"), w)
    rollback := fun _ w => .ok w }

/-- Manager for the C8 theorems. -/
def mgrC8 : DeploymentManager :=
  { registry := fun _ => some adapterC8
    validate_commands_for_agent := fun _ => .ok ⟨true, [], []⟩ }

/-- C1: with a limit `M` present, `validate_character_budget` is valid exactly
when the content's byte count is at most `M` (equality allowed); a count
strictly above `M` yields an error and `valid = false`; a count in the open
interval `(0.8 * M, M]` yields at least one warning while remaining valid; and
with no limit the result is always valid with `within_limit = true`. -/
theorem validate_character_budget_correct (content : String) (M : Nat) :
    ((validate_character_budget content (some M)).valid = true ↔
        content.utf8ByteSize ≤ M)
    ∧ (M < content.utf8ByteSize →
        (validate_character_budget content (some M)).errors ≠ [] ∧
        (validate_character_budget content (some M)).valid = false)
    ∧ ((4 / 5 : ℚ) * (M : ℚ) < (content.utf8ByteSize : ℚ) ∧
        content.utf8ByteSize ≤ M →
        (validate_character_budget content (some M)).warnings ≠ [] ∧
        (validate_character_budget content (some M)).valid = true)
    ∧ (validate_character_budget content none).valid = true
    ∧ (validate_character_budget content none).budget.within_limit = true := by
  refine ⟨?_, ?_, ?_, ?_, ?_⟩
  · by_cases h : content.utf8ByteSize ≤ M <;> simp [validate_character_budget, h]
  · intro h
    have h' : ¬ content.utf8ByteSize ≤ M := Nat.not_le.mpr h
    simp [validate_character_budget, h']
  · rintro ⟨h1, h2⟩
    have hn : 0 < content.utf8ByteSize := by
      have h0 : (0 : ℚ) ≤ (4 / 5 : ℚ) * (M : ℚ) := by positivity
      exact_mod_cast h0.trans_lt h1
    have hM : 0 < M := lt_of_lt_of_le hn h2
    have hMq : (0 : ℚ) < (M : ℚ) := by exact_mod_cast hM
    have hpct : ((content.utf8ByteSize : ℚ) / (M : ℚ)) * 100 > 80 := by
      rw [gt_iff_lt, div_mul_eq_mul_div, lt_div_iff₀ hMq]
      nlinarith
    constructor
    · simp [validate_character_budget, h2, hpct]
    · simp [validate_character_budget, h2]
  · simp [validate_character_budget]
  · simp [validate_character_budget, BudgetUsage.unlimited]

/-- Witness for C1 at content of 9 bytes against limit 10 (interval
`(8, 10]`): the call reports a warning, stays valid, and a no-limit call is
valid. -/
theorem validate_character_budget_correct_witness :
    ((4 / 5 : ℚ) * ((10 : Nat) : ℚ) < (("abcdefghi".utf8ByteSize : Nat) : ℚ)
        ∧ "abcdefghi".utf8ByteSize ≤ 10)
    ∧ ((validate_character_budget "abcdefghi" (some 10)).warnings ≠ [] ∧
        (validate_character_budget "abcdefghi" (some 10)).valid = true) :=
  have h9 : "abcdefghi".utf8ByteSize = 9 := rfl
  ⟨⟨by rw [h9]; norm_num, by rw [h9]; norm_num⟩,
    (validate_character_budget_correct "abcdefghi" 10).2.2.1
      ⟨by rw [h9]; norm_num, by rw [h9]; norm_num⟩⟩

theorem lookupAssoc_insertAssoc {β : Type} (l : List (String × β))
    (k k' : String) (v : β) :
    lookupAssoc (insertAssoc l k v) k' =
      if k' = k then some v else lookupAssoc l k' := by
  by_cases h : k' = k
  · subst h
    simp [lookupAssoc, insertAssoc, List.find?_cons_of_pos]
  · simp only [lookupAssoc, insertAssoc, if_neg h]
    rw [List.find?_cons_of_neg _ (by simp; exact fun hh => h hh.symm)]
    induction l with
    | nil => simp
    | cons e es ih =>
        by_cases he : e.1 = k
        · rw [List.filter_cons_of_neg (by simp [he]),
            List.find?_cons_of_neg _ (by simp [he]; exact fun hh => h hh.symm)]
          exact ih
        · rw [List.filter_cons_of_pos (by simp [he])]
          by_cases hek : e.1 = k'
          · rw [List.find?_cons_of_pos _ (by simp [hek]),
              List.find?_cons_of_pos _ (by simp [hek])]
          · rw [List.find?_cons_of_neg _ (by simp [hek]),
              List.find?_cons_of_neg _ (by simp [hek])]
            exact ih

theorem applyPrepOp_character_count (p : PreparedDeployment) (op : PrepOp) :
    (applyPrepOp p op).character_count = p.character_count + prepOpChars op := by
  cases op <;>
    simp [applyPrepOp, prepOpChars, PreparedDeployment.add_command,
      PreparedDeployment.add_config_file, PreparedDeployment.add_target_path]

theorem foldl_applyPrepOp_character_count (ops : List PrepOp) :
    ∀ p : PreparedDeployment,
      (ops.foldl applyPrepOp p).character_count =
        p.character_count + (ops.map prepOpChars).sum := by
  induction ops with
  | nil => intro p; simp
  | cons op ops ih =>
      intro p
      rw [List.foldl_cons, ih, applyPrepOp_character_count]
      simp [Nat.add_assoc]

/-- C10: after `new content` and any sequence of `add_command`,
`add_config_file`, `add_target_path` calls, `character_count` is the byte
length of the primary content plus the byte lengths of all added command
contents; `add_config_file` never changes `character_count`. -/
theorem prepared_deployment_character_count (content : String)
    (ops : List PrepOp) :
    ((ops.foldl applyPrepOp (PreparedDeployment.new content)).character_count =
      content.utf8ByteSize +
        (ops.map prepOpChars).sum)
    ∧ (∀ (p : PreparedDeployment) (path c : String),
        (p.add_config_file path c).character_count = p.character_count) := by
  refine ⟨?_, ?_⟩
  · rw [foldl_applyPrepOp_character_count]
    simp [PreparedDeployment.new]
  · intro p path c
    simp [PreparedDeployment.add_config_file]

theorem truncate10_eq_drop (l : List DeploymentState) :
    truncate10 l = l.drop (l.length - 10) := by
  unfold truncate10
  by_cases h : l.length > 10
  · rw [if_pos h]
  · rw [if_neg h]
    have : l.length - 10 = 0 := by omega
    rw [this, List.drop_zero]

theorem truncate10_length_le (l : List DeploymentState) :
    (truncate10 l).length ≤ 10 := by
  rw [truncate10_eq_drop, List.length_drop]
  omega

theorem truncate10_of_length_le (l : List DeploymentState)
    (h : l.length ≤ 10) : truncate10 l = l := by
  rw [truncate10_eq_drop]
  have : l.length - 10 = 0 := by omega
  rw [this, List.drop_zero]

theorem truncate10_append_truncate10 (x y : List DeploymentState) :
    truncate10 (truncate10 x ++ y) = truncate10 (x ++ y) := by
  have h : ∀ l : List DeploymentState,
      truncate10 l = (l.reverse.take 10).reverse := by
    intro l
    rw [truncate10_eq_drop]
    have hr : l.drop (l.length - 10) = l.rtake 10 := rfl
    rw [hr, List.rtake_eq_reverse_take_reverse]
  rw [h, h, h]
  congr 1
  rw [List.reverse_append, List.reverse_reverse, List.reverse_append,
    List.take_append_eq_append_take, List.take_append_eq_append_take,
    List.take_take]
  congr 1
  congr 1
  omega

theorem storeHistory_record_deployment (store : StoreMap)
    (s : DeploymentState) (agent : String) :
    storeHistory (record_deployment store s) agent =
      if agent = s.agent_id then
        truncate10 (storeHistory store s.agent_id ++ [s])
      else storeHistory store agent := by
  unfold storeHistory record_deployment
  rw [lookupAssoc_insertAssoc]
  by_cases h : agent = s.agent_id <;> simp [h, storeHistory]

theorem storeHistory_nil (agent : String) :
    storeHistory ([] : StoreMap) agent = [] := rfl

theorem storeHistory_foldl_length_le (recs : List DeploymentState) :
    ∀ store : StoreMap, (∀ a, (storeHistory store a).length ≤ 10) →
      ∀ agent, (storeHistory (recs.foldl record_deployment store) agent).length ≤ 10 := by
  induction recs with
  | nil => intro store h agent; exact h agent
  | cons s rest ih =>
      intro store h agent
      refine ih _ (fun a => ?_) agent
      rw [storeHistory_record_deployment]
      by_cases ha : a = s.agent_id
      · rw [if_pos ha]; exact truncate10_length_le _
      · rw [if_neg ha]; exact h a

theorem storeHistory_foldl_same_agent (agent : String)
    (recs : List DeploymentState) :
    ∀ store : StoreMap, (∀ s ∈ recs, s.agent_id = agent) →
      storeHistory (recs.foldl record_deployment store) agent =
        recs.foldl (fun h s => truncate10 (h ++ [s])) (storeHistory store agent) := by
  induction recs with
  | nil => intro store _; rfl
  | cons s rest ih =>
      intro store hall
      rw [List.foldl_cons, List.foldl_cons,
        ih _ (fun t ht => hall t (List.mem_cons_of_mem _ ht)),
        storeHistory_record_deployment, if_pos (hall s (List.mem_cons_self _ _)).symm,
        hall s (List.mem_cons_self _ _)]

theorem foldl_truncate_step (recs : List DeploymentState) :
    ∀ h : List DeploymentState, h.length ≤ 10 →
      recs.foldl (fun h s => truncate10 (h ++ [s])) h = truncate10 (h ++ recs) := by
  induction recs with
  | nil =>
      intro h hh
      rw [List.foldl_nil, List.append_nil, truncate10_of_length_le _ hh]
  | cons s rest ih =>
      intro h hh
      rw [List.foldl_cons, ih _ (truncate10_length_le _),
        truncate10_append_truncate10, List.append_assoc, List.singleton_append]

/-- C7: starting from the empty store, after any sequence of recorded
deployments every target's history has at most 10 entries; and a sequence of
12 records for one target leaves exactly the most recent 10 (the oldest two
are evicted). -/
theorem state_store_history_bounded (recs : List DeploymentState)
    (agent : String) :
    ((storeHistory (recs.foldl record_deployment ([] : StoreMap)) agent).length ≤ 10)
    ∧ (recs.length = 12 → (∀ s ∈ recs, s.agent_id = agent) →
        storeHistory (recs.foldl record_deployment ([] : StoreMap)) agent =
          recs.drop 2) := by
  constructor
  · exact storeHistory_foldl_length_le recs [] (fun a => by rw [storeHistory_nil]; simp) agent
  · intro hlen hall
    rw [storeHistory_foldl_same_agent agent recs [] hall, storeHistory_nil,
      foldl_truncate_step recs [] (by simp), List.nil_append,
      truncate10_eq_drop, hlen]

/-- Witness for C7: recording the 12 concrete deployments retains exactly the
last 10. -/
theorem state_store_history_bounded_witness :
    witnessStates.length = 12 ∧ (∀ s ∈ witnessStates, s.agent_id = "a") ∧
      storeHistory (witnessStates.foldl record_deployment ([] : StoreMap)) "a" =
        witnessStates.drop 2 :=
  ⟨by decide, by decide,
    (state_store_history_bounded witnessStates "a").2 (by decide) (by decide)⟩

theorem removeFile_mem_attempt_chain (fs : FsView) (ops : LinkOps)
    (link_path target_path : String) (target_is_dir : Bool)
    (acts : List FsAction) (p : String) :
    FsAction.removeFile p ∈
        (attempt_chain fs ops link_path target_path target_is_dir acts).2 ↔
      FsAction.removeFile p ∈ acts := by
  unfold attempt_chain
  split
  · simp
  · split
    · simp
    · split
      · simp
      · cases ops.copyResult <;> simp

/-- C2: with an existing destination, `create_link` returns `Existing` with
no warning and no mutation when destination and source already resolve to the
same file (any `force`); otherwise it fails with `LinkExists` when `force` is
off; with `force` on it deletes the destination only when it is a symlink —
a plain file or directory yields `WouldOverwrite` untouched. -/
theorem create_link_existing_destination (fs : FsView) (ops : LinkOps)
    (link_path target_path0 : String) (force : Bool)
    (ht : fs.pathExists ((fs.canonicalize target_path0).getD target_path0) = true)
    (hl : fs.pathExists link_path = true) :
    (paths_point_to_same fs link_path
          ((fs.canonicalize target_path0).getD target_path0) = true →
        create_link fs ops link_path target_path0 force =
          (.ok (.Existing, none), []))
    ∧ (paths_point_to_same fs link_path
          ((fs.canonicalize target_path0).getD target_path0) = false →
        force = false →
        create_link fs ops link_path target_path0 force =
          (.error (.LinkExists link_path), []))
    ∧ (paths_point_to_same fs link_path
          ((fs.canonicalize target_path0).getD target_path0) = false →
        force = true → fs.isSymlink link_path = false →
        create_link fs ops link_path target_path0 force =
          (.error (.WouldOverwrite link_path), []))
    ∧ (∀ p, FsAction.removeFile p ∈
          (create_link fs ops link_path target_path0 force).2 →
        p = link_path ∧ fs.isSymlink link_path = true) := by
  refine ⟨?_, ?_, ?_, ?_⟩
  · intro hsame
    simp [create_link, ht, hl, hsame]
  · intro hsame hforce
    subst hforce
    simp [create_link, ht, hl, hsame]
  · intro hsame hforce hsym
    subst hforce
    simp [create_link, ht, hl, hsame, hsym]
  · intro p hp
    by_cases hsame : paths_point_to_same fs link_path
        ((fs.canonicalize target_path0).getD target_path0) = true
    · simp [create_link, ht, hl, hsame] at hp
    · have hsame' : paths_point_to_same fs link_path
          ((fs.canonicalize target_path0).getD target_path0) = false := by
        simpa using hsame
      cases force
      · simp [create_link, ht, hl, hsame'] at hp
      · by_cases hsym : fs.isSymlink link_path = true
        · simp [create_link, ht, hl, hsame', hsym,
            removeFile_mem_attempt_chain] at hp
          exact ⟨hp, hsym⟩
        · have hsym' : fs.isSymlink link_path = false := by simpa using hsym
          simp [create_link, ht, hl, hsame', hsym', ite_self] at hp

/-- Witness for C2: forcing over an existing plain file fails with
`WouldOverwrite` and performs no mutation. -/
theorem create_link_existing_destination_witness :
    create_link linkFsA linkOpsA "/dst" "/src" true =
      (.error (.WouldOverwrite "/dst"), []) :=
  (create_link_existing_destination linkFsA linkOpsA "/dst" "/src" true
      (by decide) (by decide)).2.2.1 (by decide) rfl (by decide)

/-- C9 (amended): once past the existing-destination handling, the tiers run
in order symlink → junction (Windows, directories) → hard link (files) →
copy; a symlink success carries no warning, every later tier a non-empty
warning; when every tier fails the copy tier's I/O error is returned (the
`AllMethodsFailed` aggregate is never produced). -/
theorem create_link_fallback_chain (fs : FsView) (ops : LinkOps)
    (link_path target_path0 : String) (force : Bool)
    (ht : fs.pathExists ((fs.canonicalize target_path0).getD target_path0) = true)
    (hpass : fs.pathExists link_path = false ∨
      (fs.pathExists link_path = true ∧
        paths_point_to_same fs link_path
          ((fs.canonicalize target_path0).getD target_path0) = false ∧
        force = true ∧ fs.isSymlink link_path = true)) :
    (ops.symlinkOk = true →
        (create_link fs ops link_path target_path0 force).1 =
          .ok (.Symlink, none))
    ∧ (ops.symlinkOk = false →
        (ops.isWindows = true ∧
          fs.isDir ((fs.canonicalize target_path0).getD target_path0) = true ∧
          ops.junctionOk = true) →
        (create_link fs ops link_path target_path0 force).1 =
          .ok (.Junction, some junction_warning) ∧ junction_warning ≠ "")
    ∧ (ops.symlinkOk = false →
        ¬ (ops.isWindows = true ∧
            fs.isDir ((fs.canonicalize target_path0).getD target_path0) = true ∧
            ops.junctionOk = true) →
        (fs.isDir ((fs.canonicalize target_path0).getD target_path0) = false ∧
          fs.isFile ((fs.canonicalize target_path0).getD target_path0) = true ∧
          ops.hardlinkOk = true) →
        (create_link fs ops link_path target_path0 force).1 =
          .ok (.Hardlink, some hardlink_warning) ∧ hardlink_warning ≠ "")
    ∧ (ops.symlinkOk = false →
        ¬ (ops.isWindows = true ∧
            fs.isDir ((fs.canonicalize target_path0).getD target_path0) = true ∧
            ops.junctionOk = true) →
        ¬ (fs.isDir ((fs.canonicalize target_path0).getD target_path0) = false ∧
            fs.isFile ((fs.canonicalize target_path0).getD target_path0) = true ∧
            ops.hardlinkOk = true) →
        ((ops.copyResult = none →
          (create_link fs ops link_path target_path0 force).1 =
            .ok (.Copy, some copy_warning) ∧ copy_warning ≠ "")
        ∧ (∀ e, ops.copyResult = some e →
            (create_link fs ops link_path target_path0 force).1 =
              .error (.Io e)))) := by
  have hchain : ∃ acts,
      create_link fs ops link_path target_path0 force =
        attempt_chain fs ops link_path
          ((fs.canonicalize target_path0).getD target_path0)
          (fs.isDir ((fs.canonicalize target_path0).getD target_path0)) acts := by
    rcases hpass with hno | ⟨hyes, hsame, hforce, hsym⟩
    · exact ⟨[], by simp [create_link, ht, hno]⟩
    · subst hforce
      exact ⟨[FsAction.removeFile link_path],
        by simp [create_link, ht, hyes, hsame, hsym]⟩
  obtain ⟨acts, hacts⟩ := hchain
  rw [hacts]
  refine ⟨?_, ?_, ?_, ?_⟩
  · intro hs
    simp [attempt_chain, hs]
  · intro hs hj
    refine ⟨?_, by simp [junction_warning]⟩
    simp [attempt_chain, hs, hj]
  · intro hs hj hh
    refine ⟨?_, by simp [hardlink_warning]⟩
    have hj' : ¬ (ops.isWindows = true ∧
        fs.isDir ((fs.canonicalize target_path0).getD target_path0) = true ∧
        ops.junctionOk = true) := hj
    simp only [attempt_chain, hs, if_false, Bool.false_eq_true]
    rw [if_neg (by simpa using hj'), if_pos (by simpa [Bool.not_eq_true] using hh)]
  · intro hs hj hh
    constructor
    · intro hc
      refine ⟨?_, by simp [copy_warning]⟩
      simp only [attempt_chain, hs, Bool.false_eq_true, if_false]
      rw [if_neg (by simpa using hj), if_neg (by simpa [Bool.not_eq_true] using hh), hc]
    · intro e hc
      simp only [attempt_chain, hs, Bool.false_eq_true, if_false]
      rw [if_neg (by simpa using hj), if_neg (by simpa [Bool.not_eq_true] using hh), hc]

/-- Counterexample to C9 as stated: with every tier failing, `create_link`
returns the copy tier's I/O error, not the `AllMethodsFailed` aggregate. -/
theorem create_link_no_aggregate_failure :
    (create_link linkFsB linkOpsB "/dst" "/src" false).1 =
      .error (.Io "disk full")
    ∧ (create_link linkFsB linkOpsB "/dst" "/src" false).1 ≠
      .error SymlinkError.AllMethodsFailed := by
  have h : (create_link linkFsB linkOpsB "/dst" "/src" false).1 =
      .error (.Io "disk full") := rfl
  exact ⟨h, by rw [h]; simp⟩

/-- Witness for C9 (amended) at a concrete failing environment: the copy
error is what comes back. -/
theorem create_link_fallback_chain_witness :
    (create_link linkFsB linkOpsB "/dst2" "/src" false).1 =
      .error (.Io "disk full") :=
  ((create_link_fallback_chain linkFsB linkOpsB "/dst2" "/src" false
      (by decide) (Or.inl (by decide))).2.2.2 rfl (by decide) (by decide)).2
    "disk full" rfl

theorem TransDep.snoc {g : PackGraph} {v x d : String}
    (h : TransDep g v x) (e : depEdge g x d) : TransDep g v d := by
  induction h with
  | single e0 => exact .head e0 (.single e)
  | head e0 _ ih => exact .head e0 (ih e)

theorem TransDep.to_reaches {g : PackGraph} {x y : String}
    (h : TransDep g x y) : Reaches g x y := by
  induction h with
  | single e => exact .step e (.refl _)
  | head e _ ih => exact .step e ih

theorem goodOrder_nil (g : PackGraph) : GoodOrder g [] := by
  refine ⟨List.nodup_nil, ?_⟩
  intro i hi
  simp at hi

theorem GoodOrder.append {g : PackGraph} {order : List String} {id : String}
    {deps : List String} (h : GoodOrder g order) (hid : id ∉ order)
    (hdeps : lookupPack g id = some deps)
    (hsub : ∀ d ∈ deps, d ∈ order) : GoodOrder g (order ++ [id]) := by
  obtain ⟨hnd, hidx⟩ := h
  constructor
  · rw [List.nodup_append]
    exact ⟨hnd, List.nodup_singleton id,
      fun a ha hb => hid (by rwa [List.mem_singleton.mp hb] at ha)⟩
  · intro i hi
    rw [List.length_append, List.length_singleton] at hi
    by_cases hlt : i < order.length
    · obtain ⟨deps0, hd0, hsub0⟩ := hidx i hlt
      refine ⟨deps0, ?_, ?_⟩
      · rw [List.getElem_append_left hlt]
        exact hd0
      · intro d hd
        rw [List.take_append_eq_append_take]
        have h0 : i - order.length = 0 := by omega
        rw [h0, List.take_zero, List.append_nil]
        exact hsub0 d hd
    · have heq : i = order.length := by omega
      subst heq
      refine ⟨deps, ?_, ?_⟩
      · rw [List.getElem_append_right (le_refl _)]
        simpa using hdeps
      · intro d hd
        rw [List.take_append_eq_append_take, Nat.sub_self, List.take_zero,
          List.append_nil, List.take_length]
        exact hsub d hd

/-- Every member of a `GoodOrder` list has its declared dependencies in the
list; membership is therefore closed under reachability. -/
theorem GoodOrder.mem_of_reaches {g : PackGraph} {order : List String}
    (hG : GoodOrder g order) {x y : String} (hx : x ∈ order)
    (hr : Reaches g x y) : y ∈ order := by
  induction hr with
  | refl => exact hx
  | step e _ ih =>
      rename_i x' d' y' _
      obtain ⟨n, hn⟩ := List.mem_iff_get.mp hx
      obtain ⟨deps0, hd0, hsub0⟩ := hG.2 n.1 n.2
      obtain ⟨deps1, hd1, hmem1⟩ := e
      rw [List.get_eq_getElem] at hn
      rw [hn] at hd0
      rw [hd0] at hd1
      obtain rfl : deps1 = deps0 := by injection hd1.symm
      exact ih (List.take_subset _ _ (hsub0 _ hmem1))

theorem resolveDeps_ok {g : PackGraph}
    (f : String → RState → RState × Option String)
    (hf : ∀ d st st', f d st = (st', none) → ResolveOk g d st st') :
    ∀ (ds : List String) (st st' : RState),
      resolveDeps f ds st = (st', none) → DepsOk g ds st st' := by
  intro ds
  induction ds with
  | nil =>
      intro st st' h
      simp only [resolveDeps] at h
      injection h with h1 h2
      subst h1
      exact ⟨⟨[], by simp⟩, rfl, rfl, by simp, fun hG => hG,
        fun y hy => Or.inl hy⟩
  | cons d ds ih =>
      intro st st' h
      simp only [resolveDeps] at h
      by_cases hc : st.order.contains d = true
      · rw [if_pos hc] at h
        have hd : d ∈ st.order := by simpa using hc
        obtain ⟨⟨t, ht⟩, hv, hp, hds, hG, hprov⟩ := ih st st' h
        refine ⟨⟨t, ht⟩, hv, hp, ?_, hG, ?_⟩
        · intro d' hd'
          rcases List.mem_cons.mp hd' with rfl | hmem
          · rw [ht]; exact List.mem_append_left _ hd
          · exact hds d' hmem
        · intro y hy
          rcases hprov y hy with hmem | ⟨d', hd', hr⟩
          · exact Or.inl hmem
          · exact Or.inr ⟨d', List.mem_cons_of_mem _ hd', hr⟩
      · rw [if_neg hc] at h
        rcases hfd : f d st with ⟨st1, err1⟩
        rw [hfd] at h
        cases err1 with
        | some e => simp at h
        | none =>
            obtain ⟨⟨t1, ht1⟩, hv1, hp1, hd1, hG1, hprov1⟩ :=
              hf d st st1 hfd
            obtain ⟨⟨t2, ht2⟩, hv2, hp2, hds2, hG2, hprov2⟩ := ih st1 st' h
            refine ⟨⟨t1 ++ t2, by rw [ht2, ht1, List.append_assoc]⟩,
              hv2.trans hv1, hp2.trans hp1, ?_, fun hG => hG2 (hG1 hG), ?_⟩
            · intro d' hd'
              rcases List.mem_cons.mp hd' with rfl | hmem
              · rw [ht2]; exact List.mem_append_left _ hd1
              · exact hds2 d' hmem
            · intro y hy
              rcases hprov2 y hy with hy1 | ⟨d', hd', hr⟩
              · rcases hprov1 y hy1 with hy0 | hr
                · exact Or.inl hy0
                · exact Or.inr ⟨d, List.mem_cons_self _ _, hr⟩
              · exact Or.inr ⟨d', List.mem_cons_of_mem _ hd', hr⟩

theorem resolveRec_ok (g : PackGraph) :
    ∀ (fuel : Nat) (id : String) (st st' : RState),
      resolveRec g fuel id st = (st', none) → ResolveOk g id st st' := by
  intro fuel
  induction fuel with
  | zero =>
      intro id st st' h
      simp [resolveRec] at h
  | succ fuel ih =>
      intro id st st' h
      simp only [resolveRec] at h
      by_cases hv : st.visited.contains id = true
      · rw [if_pos hv] at h
        simp at h
      · rw [if_neg hv] at h
        split at h
        · simp at h
        · rename_i deps hlk
          split at h
          · simp at h
          · rename_i st2 hds
            obtain ⟨⟨t, ht⟩, hv2, hp2, hdeps2, hG2, hprov2⟩ :=
              resolveDeps_ok (resolveRec g fuel)
                (fun d s s' hh => ih d s s' hh) deps _ st2 hds
            dsimp only at ht hv2 hp2 hdeps2 hG2 hprov2
            injection h with h1 h2
            subst h1
            refine ⟨?_, ?_, ?_, ?_, ?_, ?_⟩
            · by_cases hco : st2.order.contains id = true
              · refine ⟨t, ?_⟩
                dsimp only
                rw [if_pos hco, ht]
              · refine ⟨t ++ [id], ?_⟩
                dsimp only
                rw [if_neg hco, ht, List.append_assoc]
            · dsimp only
              rw [hv2]
              exact List.erase_cons_head id st.visited
            · dsimp only
              rw [hp2]
              exact List.dropLast_concat
            · dsimp only
              by_cases hco : st2.order.contains id = true
              · rw [if_pos hco]
                simpa using hco
              · rw [if_neg hco]
                exact List.mem_append_right _ (List.mem_singleton.mpr rfl)
            · intro hG
              have hG2' := hG2 hG
              dsimp only
              by_cases hco : st2.order.contains id = true
              · rw [if_pos hco]; exact hG2'
              · rw [if_neg hco]
                exact hG2'.append (by simpa using hco) hlk hdeps2
            · intro y hy
              dsimp only at hy
              have hy' : y ∈ st2.order ∨ y = id := by
                by_cases hco : st2.order.contains id = true
                · rw [if_pos hco] at hy; exact Or.inl hy
                · rw [if_neg hco] at hy
                  rcases List.mem_append.mp hy with h1 | h1
                  · exact Or.inl h1
                  · exact Or.inr (List.mem_singleton.mp h1)
              rcases hy' with hy2 | rfl
              · rcases hprov2 y hy2 with hy0 | ⟨d, hd, hr⟩
                · exact Or.inl hy0
                · exact Or.inr (Reaches.step ⟨deps, hlk, hd⟩ hr)
              · exact Or.inr (Reaches.refl _)

/-- In a `GoodOrder` list, every transitive dependency of the entry at
position `i` occurs at a strictly earlier position. -/
theorem GoodOrder.transdep_before {g : PackGraph} {order : List String}
    (hG : GoodOrder g order) :
    ∀ (i : Nat) (hi : i < order.length) (z : String),
      TransDep g order[i] z →
      ∃ j, ∃ hj : j < order.length, j < i ∧ order[j] = z := by
  intro i
  induction i using Nat.strong_induction_on with
  | _ i ih =>
      intro hi z htd
      cases htd with
      | single e =>
          obtain ⟨deps0, hd0, hsub0⟩ := hG.2 i hi
          obtain ⟨deps1, hd1, hz⟩ := e
          rw [hd0] at hd1
          obtain rfl : deps0 = deps1 := by injection hd1
          have hmem := hsub0 z hz
          rw [List.mem_take_iff_getElem] at hmem
          obtain ⟨j, hj, hje⟩ := hmem
          have hj1 : j < i := lt_of_lt_of_le hj (min_le_left _ _)
          have hj2 : j < order.length := lt_of_lt_of_le hj (min_le_right _ _)
          exact ⟨j, hj2, hj1, hje⟩
      | head e htd' =>
          rename_i d
          obtain ⟨deps0, hd0, hsub0⟩ := hG.2 i hi
          obtain ⟨deps1, hd1, hz⟩ := e
          rw [hd0] at hd1
          obtain rfl : deps0 = deps1 := by injection hd1
          have hmem := hsub0 d hz
          rw [List.mem_take_iff_getElem] at hmem
          obtain ⟨j, hj, hje⟩ := hmem
          have hj1 : j < i := lt_of_lt_of_le hj (min_le_left _ _)
          have hj2 : j < order.length := lt_of_lt_of_le hj (min_le_right _ _)
          obtain ⟨k, hk, hkj, hkz⟩ := ih j hj1 hj2 z (hje ▸ htd')
          exact ⟨k, hk, lt_trans hkj hj1, hkz⟩

theorem lookupPack_isSome_mem_keyIds {g : PackGraph} {id : String}
    (h : (lookupPack g id).isSome) : id ∈ keyIds g := by
  unfold lookupPack lookupAssoc at h
  rcases hf : g.find? (fun e => e.1 = id) with _ | e
  · rw [hf] at h
    simp at h
  · have hmem := List.mem_of_find?_eq_some hf
    have hpe := List.find?_some hf
    simp only [decide_eq_true_eq] at hpe
    unfold keyIds
    rw [List.mem_dedup]
    exact hpe ▸ List.mem_map_of_mem Prod.fst hmem

theorem visited_length_le_keyIds {g : PackGraph} {visited : List String}
    (hnd : visited.Nodup)
    (hsome : ∀ v ∈ visited, (lookupPack g v).isSome) :
    visited.length ≤ (keyIds g).length := by
  have h1 : visited.toFinset.card = visited.length :=
    List.toFinset_card_of_nodup hnd
  have h2 : (keyIds g).toFinset.card = (keyIds g).length :=
    List.toFinset_card_of_nodup (List.nodup_dedup _)
  have h3 : visited.toFinset ⊆ (keyIds g).toFinset := by
    intro a ha
    rw [List.mem_toFinset]
    exact lookupPack_isSome_mem_keyIds (hsome a (List.mem_toFinset.mp ha))
  calc visited.length = visited.toFinset.card := h1.symm
    _ ≤ (keyIds g).toFinset.card := Finset.card_le_card h3
    _ = (keyIds g).length := h2

theorem keyIds_length_le (g : PackGraph) : (keyIds g).length ≤ g.length := by
  calc (keyIds g).length ≤ (g.map Prod.fst).length :=
        (List.dedup_sublist _).length_le
    _ = g.length := List.length_map _ _

theorem lookupPack_closed {g : PackGraph}
    (hclosed : ∀ e ∈ g, ∀ d ∈ e.2, (lookupPack g d).isSome)
    {x : String} {deps : List String} (hx : lookupPack g x = some deps) :
    ∀ d ∈ deps, (lookupPack g d).isSome := by
  unfold lookupPack lookupAssoc at hx
  rcases hfind : g.find? (fun e => e.1 = x) with _ | e0
  · rw [hfind] at hx
    simp at hx
  · rw [hfind] at hx
    have hmem := List.mem_of_find?_eq_some hfind
    intro d hd
    apply hclosed e0 hmem
    have he2 : e0.2 = deps := by
      simpa using hx
    rw [he2]
    exact hd

/-- Under a dependency-closed, acyclic graph, `resolveRec` never errors:
the ids on the call path are exactly the visited set, pairwise distinct keys
of the graph, so the budget never runs out, no pack load fails, and the
path-membership cycle check never fires. -/
theorem resolveRec_success (g : PackGraph)
    (hclosed : ∀ e ∈ g, ∀ d ∈ e.2, (lookupPack g d).isSome)
    (hacyc : ∀ x, ¬ TransDep g x x) :
    ∀ (fuel : Nat) (id : String) (st : RState),
      (lookupPack g id).isSome →
      st.visited.Nodup →
      (∀ v ∈ st.visited, (lookupPack g v).isSome) →
      (∀ v ∈ st.visited, TransDep g v id) →
      (keyIds g).length + 1 ≤ fuel + st.visited.length →
      (resolveRec g fuel id st).2 = none := by
  intro fuel
  induction fuel with
  | zero =>
      intro id st hid hnd hvsome hvtd hfuel
      exfalso
      have hle := visited_length_le_keyIds hnd hvsome
      omega
  | succ fuel ih =>
      intro id st hid hnd hvsome hvtd hfuel
      have hidnotin : id ∉ st.visited := fun hin => hacyc id (hvtd id hin)
      have hvc : ¬ st.visited.contains id = true := by simpa using hidnotin
      obtain ⟨deps, hdeps⟩ := Option.isSome_iff_exists.mp hid
      have hdepsok : ∀ (ds : List String), (∀ d ∈ ds, depEdge g id d) →
          ∀ s : RState, s.visited = id :: st.visited →
          (resolveDeps (resolveRec g fuel) ds s).2 = none := by
        intro ds
        induction ds with
        | nil =>
            intro _ s _
            simp [resolveDeps]
        | cons d ds ihds =>
            intro hde s hsv
            simp only [resolveDeps]
            by_cases hc : s.order.contains d = true
            · rw [if_pos hc]
              exact ihds (fun d' hd' => hde d' (List.mem_cons_of_mem _ hd')) s hsv
            · rw [if_neg hc]
              have hedge : depEdge g id d := hde d (List.mem_cons_self _ _)
              have hdsome : (lookupPack g d).isSome := by
                obtain ⟨deps0, h0, hmem0⟩ := hedge
                exact lookupPack_closed hclosed h0 d hmem0
              have hnodup1 : s.visited.Nodup := by
                rw [hsv]
                exact List.nodup_cons.mpr ⟨hidnotin, hnd⟩
              have hvsome1 : ∀ v ∈ s.visited, (lookupPack g v).isSome := by
                rw [hsv]
                intro v hv
                rcases List.mem_cons.mp hv with rfl | hv'
                · exact hid
                · exact hvsome v hv'
              have hvtd1 : ∀ v ∈ s.visited, TransDep g v d := by
                rw [hsv]
                intro v hv
                rcases List.mem_cons.mp hv with rfl | hv'
                · exact TransDep.single hedge
                · exact (hvtd v hv').snoc hedge
              have hfuel1 : (keyIds g).length + 1 ≤ fuel + s.visited.length := by
                rw [hsv]
                simp only [List.length_cons]
                omega
              have hcall := ih d s hdsome hnodup1 hvsome1 hvtd1 hfuel1
              rcases hres : resolveRec g fuel d s with ⟨s', err⟩
              rw [hres] at hcall
              cases err with
              | some e => simp at hcall
              | none =>
                  have hok := resolveRec_ok g fuel d s s' hres
                  exact ihds (fun d' hd' => hde d' (List.mem_cons_of_mem _ hd'))
                    s' (by rw [hok.2.1, hsv])
      simp only [resolveRec]
      rw [if_neg hvc, hdeps]
      dsimp only
      rcases hds2 : resolveDeps (resolveRec g fuel) deps
          ⟨id :: st.visited, st.order, st.path ++ [id]⟩ with ⟨st2, err2⟩
      have herr2 : err2 = none := by
        have hh := hdepsok deps (fun d hd => ⟨deps, hdeps, hd⟩)
          ⟨id :: st.visited, st.order, st.path ++ [id]⟩ rfl
        rw [hds2] at hh
        exact hh
      subst herr2
      rfl

/-- C3: when every referenced pack exists and the graph is acyclic,
resolution from `root` succeeds, its order lists exactly the ids reachable
from `root` with no duplicates, and every entry comes after all of its
transitive dependencies; and whenever some id reachable from `root` has no
pack, the whole resolution fails with an empty order. -/
theorem resolve_dependencies_correct (g : PackGraph) (root : String) :
    (((lookupPack g root).isSome
        ∧ (∀ e ∈ g, ∀ d ∈ e.2, (lookupPack g d).isSome)
        ∧ (∀ x, ¬ TransDep g x x)) →
      (resolve_dependencies_internal g root).success = true
      ∧ (resolve_dependencies_internal g root).order.Nodup
      ∧ (∀ y, Reaches g root y ↔
          y ∈ (resolve_dependencies_internal g root).order)
      ∧ (∀ (i : Nat)
            (hi : i < (resolve_dependencies_internal g root).order.length)
            (z : String),
          TransDep g (resolve_dependencies_internal g root).order[i] z →
          ∃ j, ∃ hj : j < (resolve_dependencies_internal g root).order.length,
            j < i ∧ (resolve_dependencies_internal g root).order[j] = z))
    ∧ (∀ y, Reaches g root y → lookupPack g y = none →
        (resolve_dependencies_internal g root).success = false
        ∧ (resolve_dependencies_internal g root).order = []) := by
  constructor
  · rintro ⟨hroot, hclosed, hacyc⟩
    have hsucc : (resolveRec g (g.length + 2) root ⟨[], [], []⟩).2 = none := by
      apply resolveRec_success g hclosed hacyc _ root _ hroot List.nodup_nil
        (by simp) (by simp)
      have := keyIds_length_le g
      simp only [List.length_nil]
      omega
    rcases hres : resolveRec g (g.length + 2) root ⟨[], [], []⟩ with ⟨st, err⟩
    rw [hres] at hsucc
    dsimp only at hsucc
    subst hsucc
    obtain ⟨⟨t, ht⟩, hv, hp, hmem, hG, hprov⟩ := resolveRec_ok g _ root _ st hres
    have hGood := hG (goodOrder_nil g)
    have hunfold : resolve_dependencies_internal g root =
        ⟨st.order, true, none, none⟩ := by
      unfold resolve_dependencies_internal
      rw [hres]
    rw [hunfold]
    refine ⟨rfl, hGood.1, ?_, ?_⟩
    · intro y
      constructor
      · exact fun hr => hGood.mem_of_reaches hmem hr
      · intro hy
        rcases hprov y hy with h0 | hr
        · simp at h0
        · exact hr
    · exact fun i hi z htd => hGood.transdep_before i hi z htd
  · intro y hr hnone
    rcases hres : resolveRec g (g.length + 2) root ⟨[], [], []⟩ with ⟨st, err⟩
    cases err with
    | none =>
        exfalso
        obtain ⟨⟨t, ht⟩, hv, hp, hmem, hG, hprov⟩ :=
          resolveRec_ok g _ root _ st hres
        have hGood := hG (goodOrder_nil g)
        have hy : y ∈ st.order := hGood.mem_of_reaches hmem hr
        obtain ⟨n, hn, hne⟩ := List.mem_iff_getElem.mp hy
        obtain ⟨deps0, hd0, -⟩ := hGood.2 n hn
        rw [hne, hnone] at hd0
        exact Option.noConfusion hd0
    | some e =>
        have hunfold : resolve_dependencies_internal g root =
            ⟨[], false, some e, some st.path⟩ := by
          unfold resolve_dependencies_internal
          rw [hres]
        rw [hunfold]
        exact ⟨rfl, rfl⟩

/-- Witness for C3 at the one-pack graph `A` with no dependencies:
resolution succeeds with order `[A]`. -/
theorem resolve_dependencies_correct_witness :
    (resolve_dependencies_internal [("A", ([] : List String))] "A").success = true
    ∧ (resolve_dependencies_internal [("A", ([] : List String))] "A").order =
      ["A"] := by
  have hnoedge : ∀ x d, ¬ depEdge [("A", ([] : List String))] x d := by
    rintro x d ⟨deps, hx, hd⟩
    by_cases hxa : x = "A"
    · subst hxa
      have h0 : lookupPack [("A", ([] : List String))] "A" = some [] := rfl
      rw [h0] at hx
      obtain rfl : ([] : List String) = deps := by injection hx
      exact absurd hd (List.not_mem_nil d)
    · have h0 : lookupPack [("A", ([] : List String))] x = none := by
        unfold lookupPack lookupAssoc
        rw [List.find?_cons_of_neg _ (by simp; exact fun hh => hxa hh.symm)]
        rfl
      rw [h0] at hx
      exact Option.noConfusion hx
  have hacyc : ∀ x, ¬ TransDep [("A", ([] : List String))] x x := by
    intro x ht
    cases ht with
    | single e => exact hnoedge _ _ e
    | head e _ => exact hnoedge _ _ e
  have h := (resolve_dependencies_correct [("A", ([] : List String))] "A").1
    ⟨by decide, by decide, hacyc⟩
  exact ⟨h.1, rfl⟩

/-- C4 (amended): a cycle reachable from the root makes resolution fail with
an empty order, an error message and a reported path; the reported path runs
from the root up to the unit whose dependency closes the cycle — the repeated
id is not appended again, so `A→B→A` reports path `[A, B]` (message
`"Circular dependency detected: A -> B"`). -/
theorem resolve_dependencies_cycle (g : PackGraph) (root : String) :
    ((∃ x, Reaches g root x ∧ TransDep g x x) →
      (resolve_dependencies_internal g root).success = false
      ∧ (resolve_dependencies_internal g root).order = []
      ∧ (resolve_dependencies_internal g root).error.isSome
      ∧ (resolve_dependencies_internal g root).circular_path.isSome)
    ∧ resolve_dependencies_internal [("A", ["B"]), ("B", ["A"])] "A" =
      ⟨[], false, some "Circular dependency detected: A -> B",
        some ["A", "B"]⟩ := by
  constructor
  · rintro ⟨x, hreach, hcyc⟩
    rcases hres : resolveRec g (g.length + 2) root ⟨[], [], []⟩ with ⟨st, err⟩
    cases err with
    | none =>
        exfalso
        obtain ⟨⟨t, ht⟩, hv, hp, hmem, hG, hprov⟩ :=
          resolveRec_ok g _ root _ st hres
        have hGood := hG (goodOrder_nil g)
        have hx : x ∈ st.order := hGood.mem_of_reaches hmem hreach
        obtain ⟨n, hn, hne⟩ := List.mem_iff_getElem.mp hx
        obtain ⟨j, hj, hlt, hje⟩ :=
          hGood.transdep_before n hn x (hne ▸ hcyc)
        have : j = n := (hGood.1.getElem_inj_iff).mp (hje.trans hne.symm)
        omega
    | some e =>
        have hunfold : resolve_dependencies_internal g root =
            ⟨[], false, some e, some st.path⟩ := by
          unfold resolve_dependencies_internal
          rw [hres]
        rw [hunfold]
        exact ⟨rfl, rfl, rfl, rfl⟩
  · rfl

/-- Counterexample to C4 as stated: for `A→B→A` the reported cycle path is
`[A, B]`, not `[A, B, A]`. -/
theorem resolve_dependencies_cycle_path_counterexample :
    (resolve_dependencies_internal [("A", ["B"]), ("B", ["A"])] "A").circular_path
      = some ["A", "B"]
    ∧ (resolve_dependencies_internal
        [("A", ["B"]), ("B", ["A"])] "A").circular_path
      ≠ some ["A", "B", "A"] := by
  exact ⟨rfl, by decide⟩

/-- Witness for C4 (amended) at the concrete two-pack cycle. -/
theorem resolve_dependencies_cycle_witness :
    (resolve_dependencies_internal [("A", ["B"]), ("B", ["A"])] "A").success =
      false :=
  ((resolve_dependencies_cycle [("A", ["B"]), ("B", ["A"])] "A").1
    ⟨"A", Reaches.refl _,
      TransDep.head
        (show depEdge [("A", ["B"]), ("B", ["A"])] "A" "B" from
          ⟨["B"], rfl, by decide⟩)
        (TransDep.single
          (show depEdge [("A", ["B"]), ("B", ["A"])] "B" "A" from
            ⟨["A"], rfl, by decide⟩))⟩).1

theorem adapter_report_classify_invariant (errors warnings : List String)
    (budget : BudgetUsage) :
    (adapter_report_classify errors warnings budget).errors ≠ [] →
    (adapter_report_classify errors warnings budget).valid = false := by
  unfold adapter_report_classify
  by_cases h : errors = [] <;> simp [h]

/-- C5: when the merged validation report carries any error, `deploy` stops
with `ValidationFailed` and leaves files, backup tree, and state store
untouched (the hypothesis that an adapter report with errors is marked
invalid holds for every in-repo adapter, which build reports through
`ValidationReport::failure` / `ValidationResult`). -/
theorem deploy_validation_failed_no_side_effects
    (m : DeploymentManager) (config : DeploymentConfig) (w : World)
    (adapter : Adapter) (prepared : PreparedDeployment)
    (rv merged : ValidationReport)
    (hreg : m.registry config.agent_id = some adapter)
    (hprep : adapter.prepare config = .ok prepared)
    (hval : adapter.validate prepared = .ok rv)
    (hinv : rv.errors ≠ [] → rv.valid = false)
    (hmerge : m.merge_with_command_validation rv config = .ok merged)
    (herr : merged.errors ≠ []) :
    (m.deploy config w).1 =
      .error (.ValidationFailed (joinSemi merged.errors))
    ∧ (m.deploy config w).2.fs = w.fs
    ∧ (m.deploy config w).2.backups = w.backups
    ∧ (m.deploy config w).2.store = w.store := by
  have hvalid : merged.valid = false := by
    unfold DeploymentManager.merge_with_command_validation at hmerge
    by_cases hce : config.custom_command_ids.isEmpty = true
    · rw [if_pos hce] at hmerge
      injection hmerge with h1
      subst h1
      exact hinv herr
    · rw [if_neg hce] at hmerge
      rcases hcv : m.validate_commands_for_agent config with e | cv
      · rw [hcv] at hmerge
        exact absurd hmerge (by simp)
      · rw [hcv] at hmerge
        injection hmerge with h1
        subst h1
        simp only at herr ⊢
        have hne : (rv.errors ++ cv.errors).isEmpty = false := by
          rcases h : rv.errors ++ cv.errors with _ | ⟨a, l⟩
          · exact absurd h herr
          · rfl
        rw [hne, Bool.and_false]
  simp only [DeploymentManager.deploy, hreg, hprep, hval, hmerge, hvalid]
  simp [log_failure, log_success]

/-- Witness for C5 at the concrete invalid report: `ValidationFailed` comes
back and the store is untouched. -/
theorem deploy_validation_failed_no_side_effects_witness :
    (mgrC5.deploy cfgC5 worldA).1 = .error (.ValidationFailed "boom")
    ∧ (mgrC5.deploy cfgC5 worldA).2.store = worldA.store :=
  have h := deploy_validation_failed_no_side_effects mgrC5 cfgC5 worldA
    adapterC5 (PreparedDeployment.new "x")
    ⟨false, ["boom"], [], BudgetUsage.unlimited 1⟩
    ⟨false, ["boom"], [], BudgetUsage.unlimited 1⟩
    rfl rfl rfl (fun _ => rfl) rfl (by decide)
  ⟨h.1, h.2.2.2⟩

/-! ### Backup/restore round trip -/

theorem insertAssoc_of_not_key {β : Type} (acc : List (String × β))
    (k : String) (v : β) (h : ∀ e ∈ acc, e.1 ≠ k) :
    insertAssoc acc k v = (k, v) :: acc := by
  unfold insertAssoc
  congr 1
  rw [List.filter_eq_self]
  intro e he
  simpa using h e he

theorem backupContents_foldl (fs0 : List (String × String)) :
    ∀ (files : List String), (files.map basename).Nodup →
    ∀ acc : List (String × String),
      (∀ f ∈ files, ∀ e ∈ acc, e.1 ≠ basename f) →
      files.foldl
          (fun acc f => insertAssoc acc (basename f) ((fsLookup fs0 f).getD ""))
          acc =
        (files.map (fun f => (basename f, (fsLookup fs0 f).getD ""))).reverse
          ++ acc := by
  intro files
  induction files with
  | nil =>
      intro _ acc _
      simp
  | cons f fs ih =>
      intro hnd acc hdisj
      rw [List.foldl_cons,
        insertAssoc_of_not_key _ _ _
          (fun e he => hdisj f (List.mem_cons_self _ _) e he)]
      rw [ih (List.nodup_cons.mp (by simpa using hnd)).2 _ ?_]
      · simp
      · intro f' hf' e he
        rcases List.mem_cons.mp he with rfl | he'
        · have h1 : basename f ∉ fs.map basename :=
            (List.nodup_cons.mp (by simpa using hnd)).1
          have h2 : basename f' ∈ fs.map basename := List.mem_map_of_mem _ hf'
          intro hcontra
          dsimp only at hcontra
          rw [hcontra] at h1
          exact h1 h2
        · exact hdisj f' (List.mem_cons_of_mem _ hf') e he'

theorem backupContents_eq (fs0 : List (String × String)) (files : List String)
    (hnd : (files.map basename).Nodup) :
    backupContents fs0 files =
      (files.map (fun f => (basename f, (fsLookup fs0 f).getD ""))).reverse := by
  unfold backupContents
  rw [backupContents_foldl fs0 files hnd [] (by intro f _ e he; simp at he)]
  simp

theorem find?_basename_unique (files : List String) (f : String)
    (hnd : (files.map basename).Nodup) (hf : f ∈ files) :
    files.find? (fun q => basename q = basename f) = some f := by
  induction files with
  | nil => simp at hf
  | cons g gs ih =>
      rcases List.mem_cons.mp hf with rfl | hf'
      · rw [List.find?_cons_of_pos _ (by simp)]
      · have hne : basename g ≠ basename f := by
          have h1 : basename g ∉ gs.map basename :=
            (List.nodup_cons.mp (by simpa using hnd)).1
          have h2 : basename f ∈ gs.map basename := List.mem_map_of_mem _ hf'
          intro he
          rw [he] at h1
          exact h1 h2
        rw [List.find?_cons_of_neg _ (by simpa using hne)]
        exact ih (List.nodup_cons.mp (by simpa using hnd)).2 hf'

theorem restoreStep_lookup_ne (orig : List String) (p : String)
    (e : String × String) (fsAcc : List (String × String))
    (h : orig.find? (fun q => basename q = e.1) ≠ some p) :
    fsLookup (restoreStep orig fsAcc e) p = fsLookup fsAcc p := by
  unfold restoreStep
  rcases hf : orig.find? (fun q => basename q = e.1) with _ | o
  · rfl
  · have hop : p ≠ o := fun hpo => h (by rw [hf, hpo])
    unfold fsLookup
    rw [lookupAssoc_insertAssoc, if_neg hop]

theorem restore_foldl_no_touch (orig : List String) (p : String) :
    ∀ (entries : List (String × String)) (fs1 : List (String × String)),
      (∀ e ∈ entries, orig.find? (fun q => basename q = e.1) ≠ some p) →
      fsLookup (entries.foldl (restoreStep orig) fs1) p = fsLookup fs1 p := by
  intro entries
  induction entries with
  | nil => intro fs1 _; rfl
  | cons e es ih =>
      intro fs1 h
      rw [List.foldl_cons,
        ih _ (fun e' he' => h e' (List.mem_cons_of_mem _ he'))]
      exact restoreStep_lookup_ne orig p e fs1 (h e (List.mem_cons_self _ _))

/-- Restoring the backup of `files` (distinct basenames, taken from `fs0`)
over any clobbered world recovers each file's original content. -/
theorem restore_backup_roundtrip (bdir : String) (files : List String)
    (fs0 : List (String × String)) (w2 : World)
    (hnd : (files.map basename).Nodup)
    (hbk : lookupAssoc w2.backups bdir = some (backupContents fs0 files)) :
    ∃ w3, restore_backup bdir files w2 = .ok w3
      ∧ w3.store = w2.store ∧ w3.backups = w2.backups ∧ w3.logs = w2.logs
      ∧ ∀ p ∈ files, fsLookup w3.fs p = some ((fsLookup fs0 p).getD "") := by
  refine ⟨{ w2 with
      fs := (backupContents fs0 files).foldl (restoreStep files) w2.fs }, ?_,
    rfl, rfl, rfl, ?_⟩
  · unfold restore_backup
    rw [hbk]
  · intro p hp
    obtain ⟨u, v, huv⟩ := List.append_of_mem hp
    have hnd' := hnd
    rw [huv] at hnd' ⊢
    rw [backupContents_eq fs0 _ hnd']
    rw [List.map_append, List.map_cons, List.reverse_append,
      List.reverse_cons, List.foldl_append, List.foldl_append]
    rw [restore_foldl_no_touch _ p _ _ ?side]
    case side =>
      intro e he
      rw [List.mem_reverse] at he
      obtain ⟨g, hg, rfl⟩ := List.mem_map.mp he
      have hfind := find?_basename_unique (u ++ p :: v) g hnd'
        (List.mem_append_left _ hg)
      dsimp only
      rw [hfind]
      intro hcontra
      obtain rfl : g = p := by injection hcontra
      rw [List.map_append] at hnd'
      have h1 := (List.nodup_append.mp hnd').2.2
      exact h1 (List.mem_map_of_mem _ hg)
        (by rw [List.map_cons]; exact List.mem_cons_self _ _)
    · rw [List.foldl_cons]
      have hfindp := find?_basename_unique (u ++ p :: v) p hnd'
        (List.mem_append_right _ (List.mem_cons_self _ _))
      show fsLookup (restoreStep (u ++ p :: v) _ (basename p, _)) p = _
      unfold restoreStep
      dsimp only
      rw [hfindp]
      unfold fsLookup
      rw [lookupAssoc_insertAssoc, if_pos rfl]

theorem insertSortedByKey_length (x : String × List (String × String)) :
    ∀ ys, (insertSortedByKey x ys).length = ys.length + 1 := by
  intro ys
  induction ys with
  | nil => rfl
  | cons y ys ih =>
      unfold insertSortedByKey
      by_cases h : strLeB x.1 y.1 = true
      · rw [if_pos h]
        rfl
      · rw [if_neg h]
        simp [ih]

theorem sortByKey_length (l : List (String × List (String × String))) :
    (sortByKey l).length = l.length := by
  unfold sortByKey
  induction l with
  | nil => rfl
  | cons x xs ih =>
      rw [List.foldr_cons, insertSortedByKey_length, ih]
      rfl

theorem cleanup_old_backups_noop (agent : String) (keep : Nat) (w : World)
    (h : (w.backups.filter
        (fun e => startsWithStr e.1 ("backups/" ++ agent ++ "/"))).length ≤ keep) :
    cleanup_old_backups agent keep w = w := by
  unfold cleanup_old_backups
  rw [if_neg]
  rw [gt_iff_lt, not_lt, sortByKey_length]
  exact h

theorem cleanup_old_backups_fs (agent : String) (keep : Nat) (w : World) :
    (cleanup_old_backups agent keep w).fs = w.fs := by
  unfold cleanup_old_backups
  dsimp only
  split <;> rfl

theorem cleanup_old_backups_store (agent : String) (keep : Nat) (w : World) :
    (cleanup_old_backups agent keep w).store = w.store := by
  unfold cleanup_old_backups
  dsimp only
  split <;> rfl

theorem cleanup_old_backups_now (agent : String) (keep : Nat) (w : World) :
    (cleanup_old_backups agent keep w).now = w.now := by
  unfold cleanup_old_backups
  dsimp only
  split <;> rfl

theorem create_backup_of_forall_exists (agent : String) (files : List String)
    (w : World) (hne : files ≠ [])
    (hex : ∀ f ∈ files, fsPathExists w.fs f = true) :
    create_backup agent files w = .ok (some (backupDirName agent w.now),
      cleanup_old_backups agent 5
        { w with backups := (insertAssoc w.backups (backupDirName agent w.now)
            (backupContents w.fs files)) }) := by
  have h1 : files.isEmpty = false := by
    cases files with
    | nil => exact absurd rfl hne
    | cons a l => rfl
  have h2 : files.filter (fun f => fsPathExists w.fs f) = files :=
    List.filter_eq_self.mpr hex
  unfold create_backup
  rw [if_neg (by simp [h1]), h2, if_neg (by simp [h1])]

theorem restore_backup_ok_proj (b : String) (o : List String) (w w' : World)
    (h : restore_backup b o w = .ok w') :
    w'.store = w.store ∧ w'.backups = w.backups ∧ w'.now = w.now := by
  unfold restore_backup at h
  rcases hlk : lookupAssoc w.backups b with _ | entries <;> rw [hlk] at h
  · exact absurd h (by simp)
  · injection h with h1
    subst h1
    exact ⟨rfl, rfl, rfl⟩

/-- C6 core (amended): when the adapter's deploy step fails, the
post-validation tail restores the backup best-effort with the restore
result discarded, returns the original deploy error, and records no state;
when the backup was created, survived pruning and the adapter, and the
backed-up paths have distinct basenames, every pre-existing file's content
is back to its pre-deploy value. -/
theorem deploy_after_validation_failure (adapter : Adapter)
    (config : DeploymentConfig) (prepared : PreparedDeployment)
    (df : World → World) (e : DeploymentError)
    (hdep : ∀ w', adapter.deploy prepared config w' = (.error e, df w'))
    (hdfb : ∀ w', (df w').backups = w'.backups)
    (hdfs : ∀ w', (df w').store = w'.store)
    (w0 : World) :
    (deploy_after_validation adapter config prepared w0).1 = .error e
    ∧ (deploy_after_validation adapter config prepared w0).2.store = w0.store
    ∧ (prepared.target_paths.filter (fun p => fsPathExists w0.fs p) ≠ [] →
        ((prepared.target_paths.filter
            (fun p => fsPathExists w0.fs p)).map basename).Nodup →
        ((insertAssoc w0.backups (backupDirName config.agent_id w0.now)
            (backupContents w0.fs (prepared.target_paths.filter
              (fun p => fsPathExists w0.fs p)))).filter
          (fun en => startsWithStr en.1
            ("backups/" ++ config.agent_id ++ "/"))).length ≤ 5 →
        ∀ p ∈ prepared.target_paths.filter (fun p => fsPathExists w0.fs p),
          fsLookup (deploy_after_validation adapter config prepared w0).2.fs p =
            fsLookup w0.fs p) := by
  by_cases hFe : prepared.target_paths.filter (fun p => fsPathExists w0.fs p) = []
  · have hcb : create_backup config.agent_id
        (prepared.target_paths.filter (fun p => fsPathExists w0.fs p)) w0 =
        .ok (none, w0) := by
      rw [hFe]
      rfl
    have hrun : deploy_after_validation adapter config prepared w0 =
        (.error e,
          log_failure config.agent_id "deploy" [e.toMessage] (df w0)) := by
      unfold deploy_after_validation
      simp only [hcb, hdep]
    rw [hrun]
    refine ⟨rfl, ?_, ?_⟩
    · show (df w0).store = w0.store
      exact hdfs w0
    · intro hne
      exact absurd hFe hne
  · have hex : ∀ f ∈ prepared.target_paths.filter
        (fun p => fsPathExists w0.fs p), fsPathExists w0.fs f = true :=
      fun f hf => (List.mem_filter.mp hf).2
    have hcb := create_backup_of_forall_exists config.agent_id
      (prepared.target_paths.filter (fun p => fsPathExists w0.fs p)) w0 hFe hex
    obtain ⟨WB, hWBdef⟩ : ∃ WB, WB = cleanup_old_backups config.agent_id 5
        { w0 with backups := (insertAssoc w0.backups
            (backupDirName config.agent_id w0.now)
            (backupContents w0.fs (prepared.target_paths.filter
              (fun p => fsPathExists w0.fs p)))) } := ⟨_, rfl⟩
    rw [← hWBdef] at hcb
    have hrun : deploy_after_validation adapter config prepared w0 =
        (.error e, log_failure config.agent_id "deploy" [e.toMessage]
          (match restore_backup (backupDirName config.agent_id w0.now)
              (prepared.target_paths.filter (fun p => fsPathExists w0.fs p))
              (df WB) with
           | .ok w' => w'
           | .error _ => df WB)) := by
      unfold deploy_after_validation
      simp only [hcb, hdep]
    have hWBstore : WB.store = w0.store := by
      rw [hWBdef, cleanup_old_backups_store]
    have hWBnow : WB.now = w0.now := by
      rw [hWBdef, cleanup_old_backups_now]
    rw [hrun]
    refine ⟨rfl, ?_, ?_⟩
    · show (match restore_backup (backupDirName config.agent_id w0.now)
          (prepared.target_paths.filter (fun p => fsPathExists w0.fs p))
          (df WB) with
        | .ok w' => w'
        | .error _ => df WB).store = w0.store
      rcases hres : restore_backup (backupDirName config.agent_id w0.now)
          (prepared.target_paths.filter (fun p => fsPathExists w0.fs p))
          (df WB) with e' | w'
      · show (df WB).store = w0.store
        rw [hdfs, hWBstore]
      · show w'.store = w0.store
        rw [(restore_backup_ok_proj _ _ _ _ hres).1, hdfs, hWBstore]
    · intro hne hnd hprune p hp
      have hWBeq : WB = { w0 with backups := (insertAssoc w0.backups
          (backupDirName config.agent_id w0.now)
          (backupContents w0.fs (prepared.target_paths.filter
            (fun p => fsPathExists w0.fs p)))) } := by
        rw [hWBdef]
        exact cleanup_old_backups_noop _ _ _ hprune
      have hbk : lookupAssoc (df WB).backups
          (backupDirName config.agent_id w0.now) =
          some (backupContents w0.fs (prepared.target_paths.filter
            (fun p => fsPathExists w0.fs p))) := by
        rw [hdfb, hWBeq]
        show lookupAssoc (insertAssoc w0.backups _ _) _ = _
        rw [lookupAssoc_insertAssoc, if_pos rfl]
      obtain ⟨w3, hres, hst3, hbk3, hlg3, hlook⟩ :=
        restore_backup_roundtrip (backupDirName config.agent_id w0.now)
          (prepared.target_paths.filter (fun p => fsPathExists w0.fs p))
          w0.fs (df WB) hnd hbk
      simp only [hres]
      show fsLookup w3.fs p = fsLookup w0.fs p
      rw [hlook p hp]
      have hsome : (fsLookup w0.fs p).isSome = true := hex p hp
      rcases ho : fsLookup w0.fs p with _ | c
      · rw [ho] at hsome
        exact absurd hsome (by simp)
      · rfl

theorem deploy_unfold_valid (m : DeploymentManager) (config : DeploymentConfig)
    (w : World) (adapter : Adapter) (prepared : PreparedDeployment)
    (rv merged : ValidationReport)
    (hreg : m.registry config.agent_id = some adapter)
    (hprep : adapter.prepare config = .ok prepared)
    (hval : adapter.validate prepared = .ok rv)
    (hmerge : m.merge_with_command_validation rv config = .ok merged)
    (hvalid : merged.valid = true) :
    m.deploy config w = deploy_after_validation adapter config prepared
      (log_success config.agent_id "validate" (some "Validated")
        (log_success config.agent_id "prepare"
          (some ("Starting deployment with " ++
            toString config.pack_ids.length ++ " packs")) w)) := by
  simp only [DeploymentManager.deploy, hreg, hprep, hval, hmerge, hvalid]
  simp

/-- C6 (amended): a failing adapter deploy triggers a best-effort backup
restore whose own outcome is discarded, the original deploy error is
returned (never substituted, never presented as success) and no state is
recorded; when a backup was created (some target path pre-existed), survived
pruning and the adapter's mutation, and the backed-up paths have distinct
basenames, every pre-existing file is back to its pre-deploy content. -/
theorem deploy_failure_restores (m : DeploymentManager)
    (config : DeploymentConfig) (w : World) (adapter : Adapter)
    (prepared : PreparedDeployment) (rv merged : ValidationReport)
    (df : World → World) (e : DeploymentError)
    (hreg : m.registry config.agent_id = some adapter)
    (hprep : adapter.prepare config = .ok prepared)
    (hval : adapter.validate prepared = .ok rv)
    (hmerge : m.merge_with_command_validation rv config = .ok merged)
    (hvalid : merged.valid = true)
    (hdep : ∀ w', adapter.deploy prepared config w' = (.error e, df w'))
    (hdfb : ∀ w', (df w').backups = w'.backups)
    (hdfs : ∀ w', (df w').store = w'.store) :
    (m.deploy config w).1 = .error e
    ∧ (m.deploy config w).2.store = w.store
    ∧ (prepared.target_paths.filter (fun p => fsPathExists w.fs p) ≠ [] →
        ((prepared.target_paths.filter
            (fun p => fsPathExists w.fs p)).map basename).Nodup →
        ((insertAssoc w.backups (backupDirName config.agent_id w.now)
            (backupContents w.fs (prepared.target_paths.filter
              (fun p => fsPathExists w.fs p)))).filter
          (fun en => startsWithStr en.1
            ("backups/" ++ config.agent_id ++ "/"))).length ≤ 5 →
        ∀ p ∈ prepared.target_paths.filter (fun p => fsPathExists w.fs p),
          fsLookup (m.deploy config w).2.fs p = fsLookup w.fs p) := by
  rw [deploy_unfold_valid m config w adapter prepared rv merged
    hreg hprep hval hmerge hvalid]
  exact deploy_after_validation_failure adapter config prepared df e
    hdep hdfb hdfs _

/-- Witness for C6 (amended) at the concrete run: the original error comes
back and the clobbered file is restored to its pre-deploy content. -/
theorem deploy_failure_restores_witness :
    (mgrC6.deploy cfgC5 worldA).1 = .error (.FileSystemError "/dst" "disk full")
    ∧ fsLookup (mgrC6.deploy cfgC5 worldA).2.fs "/dst" = some "orig" :=
  have h := deploy_failure_restores mgrC6 cfgC5 worldA adapterC6
    ((PreparedDeployment.new "content").add_target_path "/dst")
    ⟨true, [], [], BudgetUsage.unlimited 7⟩
    ⟨true, [], [], BudgetUsage.unlimited 7⟩
    (fun w' => { w' with fs := insertAssoc w'.fs "/dst" "CLOBBERED" })
    (.FileSystemError "/dst" "disk full")
    rfl rfl rfl rfl rfl (fun _ => rfl) (fun _ => rfl) (fun _ => rfl)
  ⟨h.1, by
    have h2 := h.2.2 (by decide) (by decide) (by decide) "/dst" (by decide)
    rw [h2]
    rfl⟩

/-- Counterexample to C6 as stated: when the restore attempt itself fails
(the backup tree vanished mid-deploy), the failure is silently discarded —
the run returns only the original deploy error, the log carries no trace of
the restore failure, and the pre-existing file keeps its clobbered content
instead of its pre-deploy state. -/
theorem deploy_restore_failure_not_surfaced :
    (mgrC6x.deploy cfgC5 worldA).1 = .error (.FileSystemError "/dst" "disk full")
    ∧ fsLookup (mgrC6x.deploy cfgC5 worldA).2.fs "/dst" = some "CLOBBERED"
    ∧ fsLookup (mgrC6x.deploy cfgC5 worldA).2.fs "/dst" ≠ some "orig"
    ∧ (mgrC6x.deploy cfgC5 worldA).2.logs =
        [⟨"a", "prepare", true, ["Starting deployment with 0 packs"]⟩,
         ⟨"a", "validate", true, ["Validated"]⟩,
         ⟨"a", "deploy", false, ["File system error at /dst: disk full"]⟩]
    ∧ (mgrC6x.deploy cfgC5 worldA).2.backups = []
    ∧ restore_backup (backupDirName "a" 0) ["/dst"]
        (mgrC6x.deploy cfgC5 worldA).2 =
      .error (.RollbackFailed "Backup directory does not exist") := by
  refine ⟨rfl, rfl, by decide, by decide, by decide, rfl⟩

theorem storeHistory_remove_latest (agent : String) (w : World) :
    storeHistory (remove_latest_deployment agent w).2.store agent =
      (storeHistory w.store agent).dropLast := by
  unfold remove_latest_deployment
  rcases hlk : lookupAssoc w.store agent with _ | states
  · dsimp only
    unfold storeHistory
    rw [hlk]
    rfl
  · dsimp only
    unfold storeHistory
    rw [lookupAssoc_insertAssoc, if_pos rfl, hlk]
    rfl

/-- C8 (amended): rollback resolves the state to undo as the latest recorded
state (no timestamp) or the exact-timestamp match (a missing match is a
`RollbackFailed` error with the world untouched); after the adapter rollback
and the backup restore (when a backup is recorded) it removes the *latest*
recorded entry from the store — which is the resolved entry only when that
resolved entry is the latest. -/
theorem rollback_resolution_and_removal (m : DeploymentManager)
    (agent_id : String) (w : World) (adapter : Adapter)
    (hreg : m.registry agent_id = some adapter) :
    (∀ ts, get_deployment_by_timestamp agent_id ts w = none →
        m.rollback agent_id (some ts) w =
          (.error (.RollbackFailed
            ("No deployment found at timestamp " ++ toString ts)), w))
    ∧ (get_agent_state agent_id w = none →
        m.rollback agent_id none w =
          (.error (.RollbackFailed
            ("No deployment found for agent " ++ agent_id)), w))
    ∧ (∀ ts s w1 w2,
        get_deployment_by_timestamp agent_id ts w = some s →
        adapter.rollback s w = .ok w1 →
        w1.store = w.store →
        (match s.backup_path with
         | some backup_path => restore_backup backup_path s.files_created w1
         | none => .ok w1) = .ok w2 →
        (m.rollback agent_id (some ts) w).1 = .ok ()
        ∧ storeHistory (m.rollback agent_id (some ts) w).2.store agent_id =
            (storeHistory w.store agent_id).dropLast)
    ∧ (∀ s w1 w2,
        get_agent_state agent_id w = some s →
        adapter.rollback s w = .ok w1 →
        w1.store = w.store →
        (match s.backup_path with
         | some backup_path => restore_backup backup_path s.files_created w1
         | none => .ok w1) = .ok w2 →
        (m.rollback agent_id none w).1 = .ok ()
        ∧ storeHistory (m.rollback agent_id none w).2.store agent_id =
            (storeHistory w.store agent_id).dropLast) := by
  have hw2store : ∀ (s : DeploymentState) (w1 w2 : World),
      w1.store = w.store →
      (match s.backup_path with
       | some backup_path => restore_backup backup_path s.files_created w1
       | none => .ok w1) = .ok w2 → w2.store = w.store := by
    intro s w1 w2 hw1s hrb
    rcases hbp : s.backup_path with _ | b
    · rw [hbp] at hrb
      injection hrb with h1
      rw [← h1]
      exact hw1s
    · rw [hbp] at hrb
      exact ((restore_backup_ok_proj _ _ _ _ hrb).1).trans hw1s
  refine ⟨?_, ?_, ?_, ?_⟩
  · intro ts hnone
    unfold DeploymentManager.rollback
    rw [hreg]
    simp only [hnone]
  · intro hnone
    unfold DeploymentManager.rollback
    rw [hreg]
    simp only [hnone]
  · intro ts s w1 w2 hres hrb hw1s hrest
    have hrun : m.rollback agent_id (some ts) w =
        (.ok (), log_success agent_id "rollback"
          (some "Rollback completed successfully")
          (remove_latest_deployment agent_id w2).2) := by
      unfold DeploymentManager.rollback
      rw [hreg]
      simp only [hres, hrb, hrest]
    rw [hrun]
    refine ⟨rfl, ?_⟩
    show storeHistory (remove_latest_deployment agent_id w2).2.store agent_id = _
    rw [storeHistory_remove_latest, hw2store s w1 w2 hw1s hrest]
  · intro s w1 w2 hres hrb hw1s hrest
    have hrun : m.rollback agent_id none w =
        (.ok (), log_success agent_id "rollback"
          (some "Rollback completed successfully")
          (remove_latest_deployment agent_id w2).2) := by
      unfold DeploymentManager.rollback
      rw [hreg]
      simp only [hres, hrb, hrest]
    rw [hrun]
    refine ⟨rfl, ?_⟩
    show storeHistory (remove_latest_deployment agent_id w2).2.store agent_id = _
    rw [storeHistory_remove_latest, hw2store s w1 w2 hw1s hrest]

/-- Counterexample to C8 as stated: rolling back to the timestamp of the
*older* entry resolves that entry but removes the *newest* one — the
resolved entry stays in the store. -/
theorem rollback_removes_latest_not_resolved :
    get_deployment_by_timestamp "a" 1 worldC8 = some stA
    ∧ (mgrC8.rollback "a" (some 1) worldC8).1 = .ok ()
    ∧ storeHistory (mgrC8.rollback "a" (some 1) worldC8).2.store "a" = [stA]
    ∧ storeHistory (mgrC8.rollback "a" (some 1) worldC8).2.store "a" ≠ [stB]
    ∧ stA ≠ stB := by
  refine ⟨by decide, rfl, by decide, by decide, by decide⟩

/-- Witness for C8 (amended) at the concrete two-entry store. -/
theorem rollback_resolution_and_removal_witness :
    (mgrC8.rollback "a" (some 1) worldC8).1 = .ok ()
    ∧ storeHistory (mgrC8.rollback "a" (some 1) worldC8).2.store "a" =
        (storeHistory worldC8.store "a").dropLast :=
  (rollback_resolution_and_removal mgrC8 "a" worldC8 adapterC8 rfl).2.2.1
    1 stA worldC8 worldC8 (by decide) rfl rfl rfl

end AgentsToolkit
